import Mathlib

/-!
Verification of the query-builder core (`src/Query.ts`): the Table / Join /
SelectQuery AST, the immutable builder protocol, SQL rendering (`toSQL`),
and the JSON (de)serialization layer.

Machine integers of the source are JavaScript numbers used only as SQL
limit/offset values; they are modelled as `Int`.  Fallible operations
(the primary-table accessor, JSON decoding, the deserialize dispatcher)
are modelled with `Except` / `Option`.

The `Condition` AST, the SQL flavors and the mutation nodes live in
modules (`Condition.ts`, `Flavor.ts`, `flavors/*`, `Mutation.ts`) that are
not part of the sources; they are modelled from the spec where needed and
marked as such.
-/

namespace TsQuery

/-- A SQL dialect ("flavor"): a strategy object exposing dialect-specific
escaping for column identifiers and table names (`ISQLFlavor`). -/
structure Flavor where
  escapeColumn : String → String
  escapeTable : String → String

/-- Modelled from the spec: `flavors/mysql.ts` is not in the sources; the
spec's scenarios show MySQL escaping identifiers and table names with
backticks. -/
def MySQLFlavor : Flavor :=
  { escapeColumn := fun s => "`" ++ s ++ "`"
    escapeTable := fun s => "`" ++ s ++ "`" }

/-- Modelled from the spec: `flavors/aws-timestream.ts` is not in the
sources; the spec only requires a second registered dialect with its own
escaping (double quotes here). -/
def AWSTimestreamFlavor : Flavor :=
  { escapeColumn := fun s => "\"" ++ s ++ "\""
    escapeTable := fun s => "\"" ++ s ++ "\"" }

/-- The flavor registry `flavors` of `Query.ts`. -/
def mysql : Flavor := MySQLFlavor

/-- The second registered flavor of `Query.ts`. -/
def awsTimestream : Flavor := AWSTimestreamFlavor

/-- Join kinds: `"INNER" | "LEFT" | "RIGHT" | "FULL"`. -/
inductive JoinKind where
  | INNER
  | LEFT
  | RIGHT
  | FULL
deriving DecidableEq, Repr

/-- The string form of a join kind, as stored in the source. -/
def JoinKind.str : JoinKind → String
  | .INNER => "INNER"
  | .LEFT => "LEFT"
  | .RIGHT => "RIGHT"
  | .FULL => "FULL"

/-- Order directions: `"ASC" | "DESC"`. -/
inductive OrderDirection where
  | ASC
  | DESC
deriving DecidableEq, Repr

/-- The string form of an order direction. -/
def OrderDirection.str : OrderDirection → String
  | .ASC => "ASC"
  | .DESC => "DESC"

/-- `interface Order { field: string; direction: "ASC" | "DESC" }`
(the source's `field` member is spelled `col` because `field` is reserved
here). -/
structure Order where
  col : String
  direction : OrderDirection
deriving DecidableEq, Repr

/-- `interface SelectField { name: string; alias?: string }` (the
source's `alias` member is spelled `aliasName` because `alias` is reserved
here). -/
structure SelectField where
  name : String
  aliasName : Option String
deriving DecidableEq, Repr

/-- `enum UnionType { UNION = "UNION", UNION_ALL = "UNION ALL" }`. -/
inductive UnionType where
  | UNION
  | UNION_ALL
deriving DecidableEq, Repr

/-- The string value of a `UnionType` enum member. -/
def UnionType.str : UnionType → String
  | .UNION => "UNION"
  | .UNION_ALL => "UNION ALL"

/-- Modelled from the spec: scalar values carried by `Condition` leaves
(`Condition.ts` is not in the sources); string literals are single-quoted,
numeric literals rendered verbatim. -/
inductive CValue where
  | s (v : String)
  | n (v : Int)
deriving DecidableEq, Repr

/-- Rendering of a condition scalar value. -/
def CValue.render : CValue → String
  | .s v => "'" ++ v ++ "'"
  | .n v => toString v

/-- Modelled from the spec: the `Condition` AST of `Condition.ts` (not in
the sources) — a closed set of variants: equality, inequality,
greater-than, less-than, between, set-membership, pattern match,
null tests, column-to-column equality, and the logical combinators
AND / OR over ordered child lists. -/
inductive Condition where
  | equal (column : String) (value : CValue)
  | notEqual (column : String) (value : CValue)
  | greaterThan (column : String) (value : CValue)
  | lessThan (column : String) (value : CValue)
  | between (column : String) (lo hi : CValue)
  | inValues (column : String) (values : List CValue)
  | like (column : String) (pat : String)
  | notLike (column : String) (pat : String)
  | isNull (column : String)
  | isNotNull (column : String)
  | columnEqual (left right : String)
  | and (cs : List Condition)
  | or (cs : List Condition)

mutual

/-- Modelled from the spec: rendering of a `Condition` — identifiers are
escaped through the flavor, the logical combinators wrap their AND/OR
joined children in parentheses (per the spec's rendered examples), and the
empty `IN` list renders the deterministic always-false set `(NULL)`. -/
def Condition.toSQL (fl : Flavor) : Condition → String
  | .equal c v => fl.escapeColumn c ++ " = " ++ v.render
  | .notEqual c v => fl.escapeColumn c ++ " != " ++ v.render
  | .greaterThan c v => fl.escapeColumn c ++ " > " ++ v.render
  | .lessThan c v => fl.escapeColumn c ++ " < " ++ v.render
  | .between c lo hi =>
      fl.escapeColumn c ++ " BETWEEN " ++ lo.render ++ " AND " ++ hi.render
  | .inValues c vs =>
      if vs.isEmpty then fl.escapeColumn c ++ " IN (NULL)"
      else fl.escapeColumn c ++ " IN (" ++
        String.intercalate ", " (vs.map CValue.render) ++ ")"
  | .like c p => fl.escapeColumn c ++ " LIKE '" ++ p ++ "'"
  | .notLike c p => fl.escapeColumn c ++ " NOT LIKE '" ++ p ++ "'"
  | .isNull c => fl.escapeColumn c ++ " IS NULL"
  | .isNotNull c => fl.escapeColumn c ++ " IS NOT NULL"
  | .columnEqual a b => fl.escapeColumn a ++ " = " ++ fl.escapeColumn b
  | .and cs => "(" ++ String.intercalate " AND " (condSQLs fl cs) ++ ")"
  | .or cs => "(" ++ String.intercalate " OR " (condSQLs fl cs) ++ ")"
termination_by c => sizeOf c

/-- Renders each condition of a list (the `map` underlying the AND/OR
combinators). -/
def condSQLs (fl : Flavor) : List Condition → List String
  | [] => []
  | c :: cs => Condition.toSQL fl c :: condSQLs fl cs
termination_by cs => sizeOf cs

end

/-- The `SelectQuery` AST node, flattening the class hierarchy
`QueryBase` (`_tables`, `_joins`) / `SelectBaseQuery` (`_fields`) /
`SelectQuery` (`_where`, `_having`, `_limit`, `_offset`, `_orderBy`,
`_groupBy`, `_unionQueries`).  A table is a source (string name or nested
`SelectQuery`) with an optional alias; a join is a table plus an optional
condition and a kind; a union entry is a `UnionType` with a query. -/
inductive SQ where
  | mk
      (tables : List ((String ⊕ SQ) × Option String))
      (joins : List (((String ⊕ SQ) × Option String) × Option Condition × JoinKind))
      (fields : List SelectField)
      (whereConds : List Condition)
      (havingConds : List Condition)
      (limitVal : Option Int)
      (offsetVal : Option Int)
      (orderBys : List Order)
      (groupBys : List String)
      (unions : List (UnionType × SQ))

/-- `class Table`: `{ source: string | SelectQuery, alias?: string }`. -/
abbrev Table : Type := (String ⊕ SQ) × Option String

/-- `class Join`: a table, an optional `ON` condition and a join kind. -/
abbrev Join : Type := Table × Option Condition × JoinKind

/-- An element of `_unionQueries`: `{ query: SelectQuery; type: UnionType }`. -/
abbrev UnionPair : Type := UnionType × SQ

def SQ.tablesOf : SQ → List Table
  | .mk t _ _ _ _ _ _ _ _ _ => t

def SQ.joinsOf : SQ → List Join
  | .mk _ j _ _ _ _ _ _ _ _ => j

def SQ.fieldsOf : SQ → List SelectField
  | .mk _ _ f _ _ _ _ _ _ _ => f

def SQ.whereOf : SQ → List Condition
  | .mk _ _ _ w _ _ _ _ _ _ => w

def SQ.havingOf : SQ → List Condition
  | .mk _ _ _ _ h _ _ _ _ _ => h

def SQ.limitOf : SQ → Option Int
  | .mk _ _ _ _ _ l _ _ _ _ => l

def SQ.offsetOf : SQ → Option Int
  | .mk _ _ _ _ _ _ o _ _ _ => o

def SQ.orderByOf : SQ → List Order
  | .mk _ _ _ _ _ _ _ ob _ _ => ob

def SQ.groupByOf : SQ → List String
  | .mk _ _ _ _ _ _ _ _ gb _ => gb

def SQ.unionsOf : SQ → List UnionPair
  | .mk _ _ _ _ _ _ _ _ _ u => u

/-- JavaScript string-option falsiness: `undefined` and `""` are falsy.
Used by `Table.toSQL`, where both `!alias` and template-guard checks are
truthiness tests on the alias. -/
def optFalsy : Option String → Bool
  | none => true
  | some a => a = ""

/-- The alias suffix of `Table.toSQL`:
`alias ? ` AS ${flavor.escapeColumn(alias)}` : ""` (a truthiness test, so
an empty-string alias renders nothing). -/
def aliasSQL (fl : Flavor) : Option String → String
  | some a => if a = "" then "" else " AS " ++ fl.escapeColumn a
  | none => ""

mutual

/-- The exported helper `escapeTable(table, flavor)`: a nested query
renders parenthesized, a string name goes through `flavor.escapeTable`. -/
def escapeTable (fl : Flavor) : (String ⊕ SQ) → String
  | .inl s => fl.escapeTable s
  | .inr q => "(" ++ SQ.toSQL fl q ++ ")"

/-- `Table.toSQL`: the escaped source followed by the alias; when the
source is a nested query and the alias is absent (or falsy), the default
alias `"t"` is synthesized. -/
def Table.toSQL (fl : Flavor) : Table → String
  | (src, al) =>
    match src with
    | .inl s => fl.escapeTable s ++ aliasSQL fl al
    | .inr q =>
        "(" ++ SQ.toSQL fl q ++ ")" ++
          aliasSQL fl (if optFalsy al then some "t" else al)
termination_by t => sizeOf t

/-- `Join.toSQL`: `<KIND> JOIN <table>[ ON <condition>]`. -/
def Join.toSQL (fl : Flavor) : Join → String
  | (tbl, cond, kind) =>
    kind.str ++ " JOIN " ++ Table.toSQL fl tbl ++
      (match cond with
       | some c => " ON " ++ Condition.toSQL fl c
       | none => "")
termination_by j => sizeOf j

/-- Renders each table of `_tables` (the `map` inside `QueryBase.toSQL`). -/
def tableSQLs (fl : Flavor) : List Table → List String
  | [] => []
  | t :: ts => Table.toSQL fl t :: tableSQLs fl ts
termination_by ts => sizeOf ts

/-- Renders each join of `_joins` (the `map` inside `SelectQuery.toSQL`). -/
def joinSQLs (fl : Flavor) : List Join → List String
  | [] => []
  | j :: js => Join.toSQL fl j :: joinSQLs fl js
termination_by js => sizeOf js

/-- The `forEach` loop over `_unionQueries` at the end of
`SelectQuery.toSQL`: each accumulated pair wraps the statement built so
far in parentheses and appends `<UNION|UNION ALL> (<other SQL>)`. -/
def unionFold (fl : Flavor) : String → List UnionPair → String
  | sql, [] => sql
  | sql, (ty, uq) :: us =>
      unionFold fl ("(" ++ sql ++ ") " ++ ty.str ++ " (" ++ SQ.toSQL fl uq ++ ")") us
termination_by _ us => sizeOf us

/-- `SelectQuery.toSQL`, inlining the super-class chain:
`SELECT <fields|*> <FROM ...>` then joins, WHERE, GROUP BY, HAVING,
ORDER BY, LIMIT, OFFSET appended in order when populated (`_limit` and
`_offset` are guarded by JavaScript truthiness, so a `0` value renders
nothing), then each union pair wraps the accumulated statement. -/
def SQ.toSQL (fl : Flavor) : SQ → String
  | .mk tables joins fields wh hv lim off ob gb uns =>
    let fromStr :=
      if tables.isEmpty then ""
      else "FROM " ++ String.intercalate "," (tableSQLs fl tables)
    let cols :=
      if fields.isEmpty then "*"
      else String.intercalate ", "
        (fields.map (fun f => fl.escapeColumn f.name ++ aliasSQL fl f.aliasName))
    let sql := "SELECT " ++ cols ++ " " ++ fromStr
    let sql :=
      if joins.isEmpty then sql
      else sql ++ " " ++ String.intercalate " " (joinSQLs fl joins)
    let sql :=
      if wh.isEmpty then sql
      else sql ++ " WHERE " ++
        String.intercalate " AND " (wh.map (Condition.toSQL fl))
    let sql :=
      if gb.isEmpty then sql
      else sql ++ " GROUP BY " ++
        String.intercalate ", " (gb.map fl.escapeColumn)
    let sql :=
      if hv.isEmpty then sql
      else sql ++ " HAVING " ++
        String.intercalate " AND " (hv.map (Condition.toSQL fl))
    let sql :=
      if ob.isEmpty then sql
      else sql ++ " ORDER BY " ++
        String.intercalate ", "
          (ob.map (fun o => fl.escapeColumn o.col ++ " " ++ o.direction.str))
    let sql :=
      match lim with
      | some l => if l = 0 then sql else sql ++ " LIMIT " ++ toString l
      | none => sql
    let sql :=
      match off with
      | some o => if o = 0 then sql else sql ++ " OFFSET " ++ toString o
      | none => sql
    unionFold fl sql uns
termination_by q => sizeOf q

end

/-- `Table.clone()`: `new Table(this.source, this.alias)` — the source
reference is shared. -/
def Table.clone (t : Table) : Table := (t.1, t.2)

/-- `Join.clone()`: `new Join(this._table, this._condition, this._type)`. -/
def Join.clone (j : Join) : Join := (j.1, j.2.1, j.2.2)

mutual

/-- `SelectQuery.clone()` (with the `QueryBase` and `SelectBaseQuery`
layers inlined): a fresh copy of every owned collection —
`[...this._tables.map((t) => t.clone())]`, `[...this._joins.map((j) =>
j.clone())]`, `[...this._fields]`, `[...this._where]`, `[...this._having]`,
`[...this._orderBy]`, `[...this._groupBy]` — the scalars `_limit` and
`_offset`, and a deep clone of `_unionQueries`. -/
def SQ.clone : SQ → SQ
  | .mk tables joins fields wh hv lim off ob gb uns =>
      .mk (tables.map Table.clone) (joins.map Join.clone) fields wh hv lim off
        ob gb (cloneUnions uns)
termination_by q => sizeOf q

/-- The deep-clone loop over `_unionQueries`:
`map((u) => ({ query: u.query.clone(), type: u.type }))`. -/
def cloneUnions : List UnionPair → List UnionPair
  | [] => []
  | (ty, uq) :: us => (ty, SQ.clone uq) :: cloneUnions us
termination_by us => sizeOf us

end

/-- On pure values, `Table.clone` is the identity. -/
theorem Table.clone_is_id (t : Table) : Table.clone t = t := rfl

/-- On pure values, `Join.clone` is the identity. -/
theorem Join.clone_join_id (j : Join) : Join.clone j = j := rfl

mutual

/-- On pure values, `SelectQuery.clone` is the identity: the clone is
structurally equal to (and independent of) the receiver. -/
theorem SQ.clone_eq : ∀ q : SQ, SQ.clone q = q
  | .mk tables joins fields wh hv lim off ob gb uns => by
    rw [SQ.clone, cloneUnions_eq uns]
    simp only [show Table.clone = id from rfl, show Join.clone = id from rfl,
      List.map_id]
termination_by q => sizeOf q

/-- On pure values, the union deep clone is the identity. -/
theorem cloneUnions_eq : ∀ us : List UnionPair, cloneUnions us = us
  | [] => by rw [cloneUnions]
  | (ty, uq) :: us => by rw [cloneUnions, SQ.clone_eq uq, cloneUnions_eq us]
termination_by us => sizeOf us

end

/-- `Query.select()`: the empty `SelectQuery` produced by the factory
(every collection empty, no limit, no offset). -/
def select : SQ := .mk [] [] [] [] [] none none [] [] []

/-- The `QueryBase.table` getter: the first table of `_tables`, or the
error `No table defined` when the table list is empty. -/
def SQ.table (q : SQ) : Except String Table :=
  match q.tablesOf with
  | [] => .error "No table defined"
  | t :: _ => .ok t

/-- `QueryBase.from(table, alias?)`: clone the receiver, then replace its
table list with a single `Table` wrapping the source; a `SelectQuery`
source is itself cloned into the new table. -/
def SQ.from_ (q : SQ) (src : String ⊕ SQ) (al : Option String) : SQ :=
  match q.clone with
  | .mk _ joins fields wh hv lim off ob gb uns =>
      .mk [((match src with
             | .inl s => Sum.inl s
             | .inr sub => Sum.inr sub.clone), al)]
        joins fields wh hv lim off ob gb uns

/-- `QueryBase.join(table, condition?, type)`: clone, then push a join. -/
def SQ.join (q : SQ) (t : Table) (c : Option Condition) (ty : JoinKind) : SQ :=
  match q.clone with
  | .mk tables joins fields wh hv lim off ob gb uns =>
      .mk tables (joins ++ [(t, c, ty)]) fields wh hv lim off ob gb uns

/-- `innerJoin(table, condition)`. -/
def SQ.innerJoin (q : SQ) (t : Table) (c : Condition) : SQ :=
  q.join t (some c) .INNER

/-- `leftJoin(table, condition)`. -/
def SQ.leftJoin (q : SQ) (t : Table) (c : Condition) : SQ :=
  q.join t (some c) .LEFT

/-- `rightJoin(table, condition)`. -/
def SQ.rightJoin (q : SQ) (t : Table) (c : Condition) : SQ :=
  q.join t (some c) .RIGHT

/-- `fullJoin(table, condition)`. -/
def SQ.fullJoin (q : SQ) (t : Table) (c : Condition) : SQ :=
  q.join t (some c) .FULL

/-- `addFields(fields)`: clone, then push the given fields. -/
def SQ.addFields (q : SQ) (fs : List SelectField) : SQ :=
  match q.clone with
  | .mk tables joins fields wh hv lim off ob gb uns =>
      .mk tables joins (fields ++ fs) wh hv lim off ob gb uns

/-- `addField(name, alias?)`. -/
def SQ.addField (q : SQ) (n : String) (a : Option String) : SQ :=
  q.addFields [⟨n, a⟩]

/-- `field(name, alias?)` (deprecated alias of `addField`). -/
def SQ.field (q : SQ) (n : String) (a : Option String) : SQ :=
  q.addFields [⟨n, a⟩]

/-- `fields(fields)`: clone, then replace the projection list wholesale. -/
def SQ.fields (q : SQ) (fs : List SelectField) : SQ :=
  match q.clone with
  | .mk tables joins _ wh hv lim off ob gb uns =>
      .mk tables joins fs wh hv lim off ob gb uns

/-- `removeFields()`: `fields([])`. -/
def SQ.removeFields (q : SQ) : SQ := q.fields []

/-- `where(condition)`: clone, then push the condition. -/
def SQ.where_ (q : SQ) (c : Condition) : SQ :=
  match q.clone with
  | .mk tables joins fields wh hv lim off ob gb uns =>
      .mk tables joins fields (wh ++ [c]) hv lim off ob gb uns

/-- `having(condition)`: clone, then push the condition. -/
def SQ.having (q : SQ) (c : Condition) : SQ :=
  match q.clone with
  | .mk tables joins fields wh hv lim off ob gb uns =>
      .mk tables joins fields wh (hv ++ [c]) lim off ob gb uns

/-- `groupBy(...field)`: clone, then push the column names. -/
def SQ.groupBy (q : SQ) (cols : List String) : SQ :=
  match q.clone with
  | .mk tables joins fields wh hv lim off ob gb uns =>
      .mk tables joins fields wh hv lim off ob (gb ++ cols) uns

/-- `removeGroupBy()`: clone, then clear the group-by list. -/
def SQ.removeGroupBy (q : SQ) : SQ :=
  match q.clone with
  | .mk tables joins fields wh hv lim off ob _ uns =>
      .mk tables joins fields wh hv lim off ob [] uns

/-- `orderBy(field, direction)`: clone, then push the order spec. -/
def SQ.orderBy (q : SQ) (c : String) (d : OrderDirection) : SQ :=
  match q.clone with
  | .mk tables joins fields wh hv lim off ob gb uns =>
      .mk tables joins fields wh hv lim off (ob ++ [⟨c, d⟩]) gb uns

/-- `removeOrderBy()`: clone, then clear the order list. -/
def SQ.removeOrderBy (q : SQ) : SQ :=
  match q.clone with
  | .mk tables joins fields wh hv lim off _ gb uns =>
      .mk tables joins fields wh hv lim off [] gb uns

/-- `limit(limit)`: clone, then set `_limit`. -/
def SQ.limit (q : SQ) (n : Int) : SQ :=
  match q.clone with
  | .mk tables joins fields wh hv _ off ob gb uns =>
      .mk tables joins fields wh hv (some n) off ob gb uns

/-- `clearLimit()`: clone, then unset `_limit`. -/
def SQ.clearLimit (q : SQ) : SQ :=
  match q.clone with
  | .mk tables joins fields wh hv _ off ob gb uns =>
      .mk tables joins fields wh hv none off ob gb uns

/-- `offset(offset)`: clone, then set `_offset`. -/
def SQ.offset (q : SQ) (n : Int) : SQ :=
  match q.clone with
  | .mk tables joins fields wh hv lim _ ob gb uns =>
      .mk tables joins fields wh hv lim (some n) ob gb uns

/-- `clearOffset()`: clone, then unset `_offset`. -/
def SQ.clearOffset (q : SQ) : SQ :=
  match q.clone with
  | .mk tables joins fields wh hv lim _ ob gb uns =>
      .mk tables joins fields wh hv lim none ob gb uns

/-- `union(query, type)`: clone, then push the union pair (the other
query is taken as given, not cloned). -/
def SQ.union (q : SQ) (other : SQ) (ty : UnionType) : SQ :=
  match q.clone with
  | .mk tables joins fields wh hv lim off ob gb uns =>
      .mk tables joins fields wh hv lim off ob gb (uns ++ [(ty, other)])

/-! ## JSON serialization -/

/-- A decoded JSON value (what `JSON.parse` yields and `toJSON` methods
produce).  Object members are an ordered association list;
`JSON.stringify` drops `undefined`-valued members, so optional source
fields are simply absent.  Numbers carry the integral values the builder
stores. -/
inductive Json where
  | null
  | bool (b : Bool)
  | num (n : Int)
  | str (s : String)
  | arr (items : List Json)
  | obj (members : List (String × Json))

/-- Property access on a decoded JSON object (`json.key`): the first
member with the given key, if any. -/
def lookupJson : List (String × Json) → String → Option Json
  | [], _ => none
  | (k, v) :: ms, key => if k = key then some v else lookupJson ms key

/-- A value found in an object is structurally smaller than the member
list (used for recursion over decoded JSON). -/
theorem sizeOf_lookupJson :
    ∀ (ms : List (String × Json)) (key : String) (v : Json),
      lookupJson ms key = some v → sizeOf v < sizeOf ms := by
  intro ms key v h
  induction ms with
  | nil => simp [lookupJson] at h
  | cons m ms ih =>
    obtain ⟨k, w⟩ := m
    rw [lookupJson] at h
    by_cases hk : k = key
    · simp only [if_pos hk, Option.some.injEq] at h
      subst h
      simp only [List.cons.sizeOf_spec, Prod.mk.sizeOf_spec]
      omega
    · simp only [if_neg hk] at h
      have := ih h
      simp only [List.cons.sizeOf_spec]
      omega

/-- Modelled from the spec: JSON form of a condition scalar. -/
def CValue.toJSON : CValue → Json
  | .s v => .str v
  | .n v => .num v

/-- Modelled from the spec: decoding of a condition scalar. -/
def cvalueFromJSON : Json → Option CValue
  | .str v => some (.s v)
  | .num v => some (.n v)
  | _ => none

/-- Decoding of a list of condition scalars. -/
def cvaluesFromJSON : List Json → Option (List CValue)
  | [] => some []
  | j :: js =>
    match cvalueFromJSON j, cvaluesFromJSON js with
    | some v, some vs => some (v :: vs)
    | _, _ => none

/-- The `column` member of a condition object. -/
def colOf (ms : List (String × Json)) : Option String :=
  match lookupJson ms "column" with
  | some (.str c) => some c
  | _ => none

/-- A scalar-valued member of a condition object. -/
def cvalAt (ms : List (String × Json)) (key : String) : Option CValue :=
  match lookupJson ms key with
  | some j => cvalueFromJSON j
  | none => none

mutual

/-- Modelled from the spec: `Condition.toJSON` — every variant serializes
with a `type` discriminator and enough information to reconstruct itself
byte-for-byte in the JSON domain. -/
def Condition.toJSON : Condition → Json
  | .equal c v =>
      .obj [("type", .str "Equal"), ("column", .str c), ("value", v.toJSON)]
  | .notEqual c v =>
      .obj [("type", .str "NotEqual"), ("column", .str c), ("value", v.toJSON)]
  | .greaterThan c v =>
      .obj [("type", .str "GreaterThan"), ("column", .str c), ("value", v.toJSON)]
  | .lessThan c v =>
      .obj [("type", .str "LessThan"), ("column", .str c), ("value", v.toJSON)]
  | .between c lo hi =>
      .obj [("type", .str "Between"), ("column", .str c),
            ("from", lo.toJSON), ("to", hi.toJSON)]
  | .inValues c vs =>
      .obj [("type", .str "In"), ("column", .str c),
            ("values", .arr (vs.map CValue.toJSON))]
  | .like c p =>
      .obj [("type", .str "Like"), ("column", .str c), ("pattern", .str p)]
  | .notLike c p =>
      .obj [("type", .str "NotLike"), ("column", .str c), ("pattern", .str p)]
  | .isNull c => .obj [("type", .str "Null"), ("column", .str c)]
  | .isNotNull c => .obj [("type", .str "NotNull"), ("column", .str c)]
  | .columnEqual a b =>
      .obj [("type", .str "ColumnEqual"), ("left", .str a), ("right", .str b)]
  | .and cs => .obj [("type", .str "And"), ("conditions", .arr (condJSONs cs))]
  | .or cs => .obj [("type", .str "Or"), ("conditions", .arr (condJSONs cs))]
termination_by c => sizeOf c

/-- JSON forms of a list of conditions. -/
def condJSONs : List Condition → List Json
  | [] => []
  | c :: cs => Condition.toJSON c :: condJSONs cs
termination_by cs => sizeOf cs

end

/-- Modelled from the spec: decoding of the non-recursive `Condition`
variants, dispatching on the `type` discriminator. -/
def decodeLeafCondition (t : String) (ms : List (String × Json)) :
    Option Condition :=
  if t = "Equal" then
    match colOf ms, cvalAt ms "value" with
    | some c, some v => some (.equal c v)
    | _, _ => none
  else if t = "NotEqual" then
    match colOf ms, cvalAt ms "value" with
    | some c, some v => some (.notEqual c v)
    | _, _ => none
  else if t = "GreaterThan" then
    match colOf ms, cvalAt ms "value" with
    | some c, some v => some (.greaterThan c v)
    | _, _ => none
  else if t = "LessThan" then
    match colOf ms, cvalAt ms "value" with
    | some c, some v => some (.lessThan c v)
    | _, _ => none
  else if t = "Between" then
    match colOf ms, cvalAt ms "from", cvalAt ms "to" with
    | some c, some lo, some hi => some (.between c lo hi)
    | _, _, _ => none
  else if t = "In" then
    match colOf ms, lookupJson ms "values" with
    | some c, some (.arr vjs) =>
        match cvaluesFromJSON vjs with
        | some vs => some (.inValues c vs)
        | none => none
    | _, _ => none
  else if t = "Like" then
    match colOf ms, lookupJson ms "pattern" with
    | some c, some (.str p) => some (.like c p)
    | _, _ => none
  else if t = "NotLike" then
    match colOf ms, lookupJson ms "pattern" with
    | some c, some (.str p) => some (.notLike c p)
    | _, _ => none
  else if t = "Null" then
    match colOf ms with
    | some c => some (.isNull c)
    | none => none
  else if t = "NotNull" then
    match colOf ms with
    | some c => some (.isNotNull c)
    | none => none
  else if t = "ColumnEqual" then
    match lookupJson ms "left", lookupJson ms "right" with
    | some (.str a), some (.str b) => some (.columnEqual a b)
    | _, _ => none
  else none

mutual

/-- Modelled from the spec: `Condition.fromJSON` — dispatch on the `type`
discriminator, reconstructing the matching variant. -/
def Condition.fromJSON (j : Json) : Option Condition :=
  match j with
  | .obj ms =>
    match lookupJson ms "type" with
    | some (.str t) =>
      if t = "And" then
        match hc : lookupJson ms "conditions" with
        | some (.arr cjs) =>
            have : sizeOf cjs < 1 + sizeOf ms := by
              have h := sizeOf_lookupJson ms "conditions" _ hc
              simp only [Json.arr.sizeOf_spec] at h
              omega
            match condsFromJSON cjs with
            | some cs => some (.and cs)
            | none => none
        | _ => none
      else if t = "Or" then
        match hc : lookupJson ms "conditions" with
        | some (.arr cjs) =>
            have : sizeOf cjs < 1 + sizeOf ms := by
              have h := sizeOf_lookupJson ms "conditions" _ hc
              simp only [Json.arr.sizeOf_spec] at h
              omega
            match condsFromJSON cjs with
            | some cs => some (.or cs)
            | none => none
        | _ => none
      else decodeLeafCondition t ms
    | _ => none
  | _ => none
termination_by sizeOf j

/-- Decoding of a list of conditions. -/
def condsFromJSON : List Json → Option (List Condition)
  | [] => some []
  | j :: js =>
    match Condition.fromJSON j, condsFromJSON js with
    | some c, some cs => some (c :: cs)
    | _, _ => none
termination_by js => sizeOf js

end

/-- Scalar values round-trip through JSON. -/
theorem cvalue_rt (v : CValue) : cvalueFromJSON v.toJSON = some v := by
  cases v <;> rfl

/-- Scalar-value lists round-trip through JSON. -/
theorem cvalues_rt (vs : List CValue) :
    cvaluesFromJSON (vs.map CValue.toJSON) = some vs := by
  induction vs with
  | nil => rfl
  | cons v vs ih => simp [cvaluesFromJSON, cvalue_rt, ih]

set_option maxHeartbeats 2000000 in
mutual

/-- Modelled from the spec: conditions round-trip through JSON —
`fromJSON(toJSON(c))` reconstructs `c` itself. -/
theorem condition_rt : ∀ c : Condition,
    Condition.fromJSON (Condition.toJSON c) = some c
  | .equal c v => by
      cases v <;> (rw [Condition.toJSON, Condition.fromJSON]; rfl)
  | .notEqual c v => by
      cases v <;> (rw [Condition.toJSON, Condition.fromJSON]; rfl)
  | .greaterThan c v => by
      cases v <;> (rw [Condition.toJSON, Condition.fromJSON]; rfl)
  | .lessThan c v => by
      cases v <;> (rw [Condition.toJSON, Condition.fromJSON]; rfl)
  | .between c lo hi => by
      cases lo <;> cases hi <;> (rw [Condition.toJSON, Condition.fromJSON]; rfl)
  | .inValues c vs => by
      rw [Condition.toJSON, Condition.fromJSON]
      show (match cvaluesFromJSON (vs.map CValue.toJSON) with
            | some vs => some (Condition.inValues c vs)
            | none => none) = some (Condition.inValues c vs)
      rw [cvalues_rt vs]
  | .like c p => by rw [Condition.toJSON, Condition.fromJSON]; rfl
  | .notLike c p => by rw [Condition.toJSON, Condition.fromJSON]; rfl
  | .isNull c => by rw [Condition.toJSON, Condition.fromJSON]; rfl
  | .isNotNull c => by rw [Condition.toJSON, Condition.fromJSON]; rfl
  | .columnEqual a b => by rw [Condition.toJSON, Condition.fromJSON]; rfl
  | .and cs => by
      rw [Condition.toJSON, Condition.fromJSON]
      show (match condsFromJSON (condJSONs cs) with
            | some cs => some (Condition.and cs)
            | none => none) = some (Condition.and cs)
      rw [conds_rt cs]
  | .or cs => by
      rw [Condition.toJSON, Condition.fromJSON]
      show (match condsFromJSON (condJSONs cs) with
            | some cs => some (Condition.or cs)
            | none => none) = some (Condition.or cs)
      rw [conds_rt cs]
termination_by c => sizeOf c

/-- Condition lists round-trip through JSON. -/
theorem conds_rt : ∀ cs : List Condition,
    condsFromJSON (condJSONs cs) = some cs
  | [] => by rw [condJSONs, condsFromJSON]
  | c :: cs => by rw [condJSONs, condsFromJSON, condition_rt c, conds_rt cs]
termination_by cs => sizeOf cs

end

/-- The optional `alias` member of a serialized table. -/
def aliasOf (ms : List (String × Json)) : Option String :=
  match lookupJson ms "alias" with
  | some (.str a) => some a
  | _ => none

/-- An optional numeric member: `JSON.stringify` drops it when the value
is `undefined`. -/
def optNumEntry (key : String) : Option Int → List (String × Json)
  | some n => [(key, Json.num n)]
  | none => []

/-- An optional string member, dropped when absent. -/
def optStrEntry (key : String) : Option String → List (String × Json)
  | some a => [(key, Json.str a)]
  | none => []

/-- A numeric member read back (`json.limit` / `json.offset`): absent or
non-numeric values leave the option unset. -/
def numAt (ms : List (String × Json)) (key : String) : Option Int :=
  match lookupJson ms key with
  | some (.num n) => some n
  | _ => none

/-- JSON form of a projection field (`fields: this._fields`). -/
def fieldToJSON (f : SelectField) : Json :=
  .obj ([("name", Json.str f.name)] ++ optStrEntry "alias" f.aliasName)

/-- Decoding of a projection field. -/
def fieldFromJSON : Json → Option SelectField
  | .obj ms =>
    match lookupJson ms "name" with
    | some (.str n) =>
        match lookupJson ms "alias" with
        | some (.str a) => some ⟨n, some a⟩
        | none => some ⟨n, none⟩
        | _ => none
    | _ => none
  | _ => none

/-- Decoding of a projection-field list. -/
def fieldsFromJSON : List Json → Option (List SelectField)
  | [] => some []
  | j :: js =>
    match fieldFromJSON j, fieldsFromJSON js with
    | some f, some fs => some (f :: fs)
    | _, _ => none

/-- JSON form of an order spec (`orderBy: this._orderBy`). -/
def orderToJSON (o : Order) : Json :=
  .obj [("field", Json.str o.col), ("direction", Json.str o.direction.str)]

/-- Decoding of an order spec. -/
def orderFromJSON : Json → Option Order
  | .obj ms =>
    match lookupJson ms "field", lookupJson ms "direction" with
    | some (.str f), some (.str d) =>
        if d = "ASC" then some ⟨f, .ASC⟩
        else if d = "DESC" then some ⟨f, .DESC⟩
        else none
    | _, _ => none
  | _ => none

/-- Decoding of an order-spec list. -/
def ordersFromJSON : List Json → Option (List Order)
  | [] => some []
  | j :: js =>
    match orderFromJSON j, ordersFromJSON js with
    | some o, some os => some (o :: os)
    | _, _ => none

/-- Decoding of a string list (`groupBy`). -/
def stringsFromJSON : List Json → Option (List String)
  | [] => some []
  | .str s :: js =>
    match stringsFromJSON js with
    | some ss => some (s :: ss)
    | none => none
  | _ => none

/-- Decoding of a serialized join kind. -/
def joinKindFromJSON (t : String) : Option JoinKind :=
  if t = "INNER" then some .INNER
  else if t = "LEFT" then some .LEFT
  else if t = "RIGHT" then some .RIGHT
  else if t = "FULL" then some .FULL
  else none

/-- Decoding of a serialized `UnionType` enum value. -/
def unionTypeFromJSON (t : String) : Option UnionType :=
  if t = "UNION" then some .UNION
  else if t = "UNION ALL" then some .UNION_ALL
  else none

/-- The JavaScript pattern `json.key || []` followed by `.map`: a falsy
value (`undefined`, `null`, `false`, `0`, `""`) yields the empty list; an
array yields its items; any other (truthy non-array) value makes the
subsequent `.map` call throw. -/
def orEmptyArr : Option Json → Option (List Json)
  | none => some []
  | some .null => some []
  | some (.bool false) => some []
  | some (.num 0) => some []
  | some (.str "") => some []
  | some (.arr xs) => some xs
  | some _ => none

/-- The JavaScript pattern `json.key ?? []` followed by iteration: only
`undefined`/`null` yield the empty list; an array yields its items; any
other value poisons the reconstructed query and is modelled as a decoding
failure. -/
def nullishArr : Option Json → Option (List Json)
  | none => some []
  | some .null => some []
  | some (.arr xs) => some xs
  | some _ => none

/-- Every list has positive size. -/
theorem one_le_sizeOf_list {α} [SizeOf α] (l : List α) : 1 ≤ sizeOf l := by
  cases l with
  | nil => simp
  | cons a t => simp only [List.cons.sizeOf_spec]; omega

/-- Items produced by `orEmptyArr` from an object member are smaller than
the object (for recursion over decoded JSON). -/
theorem sizeOf_orEmptyArr (ms : List (String × Json)) (key : String)
    (xs : List Json) (h : orEmptyArr (lookupJson ms key) = some xs) :
    sizeOf xs < 1 + sizeOf ms := by
  have hms := one_le_sizeOf_list ms
  cases hl : lookupJson ms key with
  | none => rw [hl] at h; simp [orEmptyArr] at h; subst h; simp; omega
  | some v =>
    have hv := sizeOf_lookupJson ms key v hl
    rw [hl] at h
    cases v with
    | null => simp [orEmptyArr] at h; subst h; simp; omega
    | bool b =>
        cases b with
        | false => simp [orEmptyArr] at h; subst h; simp; omega
        | true => simp [orEmptyArr] at h
    | num n =>
        by_cases hn : n = 0
        · subst hn; simp [orEmptyArr] at h; subst h; simp; omega
        · simp [orEmptyArr, hn] at h
    | str s =>
        by_cases hs : s = ""
        · subst hs; simp [orEmptyArr] at h; subst h; simp; omega
        · simp [orEmptyArr, hs] at h
    | arr items =>
        simp [orEmptyArr] at h
        subst h
        simp only [Json.arr.sizeOf_spec] at hv
        omega
    | obj mems => simp [orEmptyArr] at h

/-- Items produced by `nullishArr` from an object member are smaller than
the object. -/
theorem sizeOf_nullishArr (ms : List (String × Json)) (key : String)
    (xs : List Json) (h : nullishArr (lookupJson ms key) = some xs) :
    sizeOf xs < 1 + sizeOf ms := by
  have hms := one_le_sizeOf_list ms
  cases hl : lookupJson ms key with
  | none => rw [hl] at h; simp [nullishArr] at h; subst h; simp; omega
  | some v =>
    have hv := sizeOf_lookupJson ms key v hl
    rw [hl] at h
    cases v with
    | null => simp [nullishArr] at h; subst h; simp; omega
    | bool b => simp [nullishArr] at h
    | num n => simp [nullishArr] at h
    | str s => simp [nullishArr] at h
    | arr items =>
        simp [nullishArr] at h
        subst h
        simp only [Json.arr.sizeOf_spec] at hv
        omega
    | obj mems => simp [nullishArr] at h

/-- The non-recursive tail of `SelectQuery.fromJSON`: projection fields,
WHERE / HAVING conditions, limit, offset, order and grouping. -/
def decodeSQRest (ms : List (String × Json)) :
    Option (List SelectField × List Condition × List Condition ×
      Option Int × Option Int × List Order × List String) :=
  match lookupJson ms "fields" with
  | some (.arr fjs) =>
    match fieldsFromJSON fjs with
    | some fields =>
      match orEmptyArr (lookupJson ms "where") with
      | some wjs =>
        match condsFromJSON wjs with
        | some wh =>
          match orEmptyArr (lookupJson ms "having") with
          | some hjs =>
            match condsFromJSON hjs with
            | some hv =>
              match nullishArr (lookupJson ms "orderBy") with
              | some ojs =>
                match ordersFromJSON ojs with
                | some ob =>
                  match nullishArr (lookupJson ms "groupBy") with
                  | some gjs =>
                    match stringsFromJSON gjs with
                    | some gb =>
                        some (fields, wh, hv, numAt ms "limit",
                          numAt ms "offset", ob, gb)
                    | none => none
                  | none => none
                | none => none
              | none => none
            | none => none
          | none => none
        | none => none
      | none => none
    | none => none
  | _ => none

mutual

/-- `SelectQuery.toJSON`: the tagged plain-data form, member for member
in source order (`type`, `tables`, `unionQueries`, `joins`, `fields`,
`where`, `having`, `limit`, `offset`, `orderBy`, `groupBy`); the
`undefined` limit / offset members are dropped as `JSON.stringify` does. -/
def SQ.toJSON : SQ → Json
  | .mk tables joins fields wh hv lim off ob gb uns =>
      .obj ([("type", Json.str "SelectQuery"),
             ("tables", Json.arr (tableJSONs tables)),
             ("unionQueries", Json.arr (unionJSONs uns)),
             ("joins", Json.arr (joinJSONs joins)),
             ("fields", Json.arr (fields.map fieldToJSON)),
             ("where", Json.arr (condJSONs wh)),
             ("having", Json.arr (condJSONs hv))] ++
            optNumEntry "limit" lim ++
            optNumEntry "offset" off ++
            [("orderBy", Json.arr (ob.map orderToJSON)),
             ("groupBy", Json.arr (gb.map Json.str))])
termination_by q => sizeOf q

/-- `Table.toJSON`: `{ type: "Table", source, alias }` — a nested-query
source serializes as its own tagged object. -/
def Table.toJSON : Table → Json
  | (src, al) =>
      .obj ([("type", Json.str "Table"),
             ("source", match src with
                        | .inl s => Json.str s
                        | .inr q => SQ.toJSON q)] ++
            optStrEntry "alias" al)
termination_by t => sizeOf t

/-- `Join.toJSON`: `{ type: "Join", table, condition, joinType }`. -/
def Join.toJSON : Join → Json
  | (tbl, cond, kind) =>
      .obj ([("type", Json.str "Join"), ("table", Table.toJSON tbl)] ++
            (match cond with
             | some c => [("condition", Condition.toJSON c)]
             | none => []) ++
            [("joinType", Json.str kind.str)])
termination_by j => sizeOf j

/-- JSON forms of the `_tables` list. -/
def tableJSONs : List Table → List Json
  | [] => []
  | t :: ts => Table.toJSON t :: tableJSONs ts
termination_by ts => sizeOf ts

/-- JSON forms of the `_joins` list. -/
def joinJSONs : List Join → List Json
  | [] => []
  | j :: js => Join.toJSON j :: joinJSONs js
termination_by js => sizeOf js

/-- JSON forms of `_unionQueries`: `{ type, query }` per entry. -/
def unionJSONs : List UnionPair → List Json
  | [] => []
  | (ty, uq) :: us =>
      Json.obj [("type", Json.str ty.str), ("query", SQ.toJSON uq)] ::
        unionJSONs us
termination_by us => sizeOf us

end

mutual

/-- `Table.fromJSON`: an object-shaped `source` carrying the
`SelectQuery` tag is decoded recursively; a string `source` becomes a
plain table; anything else produces no usable table. -/
def Table.fromJSON (j : Json) : Option Table :=
  match j with
  | .obj ms =>
    match hsrc : lookupJson ms "source" with
    | some (.obj sms) =>
        match lookupJson sms "type" with
        | some (.str t) =>
            if t = "SelectQuery" then
              have : sizeOf sms < sizeOf ms := by
                have h := sizeOf_lookupJson ms "source" _ hsrc
                simp only [Json.obj.sizeOf_spec] at h
                omega
              match SQ.fromJSON (.obj sms) with
              | some sub => some (Sum.inr sub, aliasOf ms)
              | none => none
            else none
        | _ => none
    | some (.str s) => some (Sum.inl s, aliasOf ms)
    | _ => none
  | _ => none
termination_by sizeOf j

/-- `Join.fromJSON`: decode the table, then
`json.condition && Condition.fromJSON(json.condition)` (a falsy member
leaves the join unconditional), then the join kind. -/
def Join.fromJSON (j : Json) : Option Join :=
  match j with
  | .obj ms =>
    match htb : lookupJson ms "table" with
    | some tj =>
        have : sizeOf tj < 1 + sizeOf ms := by
          have h := sizeOf_lookupJson ms "table" _ htb
          omega
        match Table.fromJSON tj with
        | some tbl =>
            match lookupJson ms "joinType" with
            | some (.str t) =>
                match joinKindFromJSON t with
                | some kind =>
                    match lookupJson ms "condition" with
                    | none => some (tbl, none, kind)
                    | some .null => some (tbl, none, kind)
                    | some (.bool false) => some (tbl, none, kind)
                    | some (.num 0) => some (tbl, none, kind)
                    | some (.str "") => some (tbl, none, kind)
                    | some cj =>
                        match Condition.fromJSON cj with
                        | some c => some (tbl, some c, kind)
                        | none => none
                | none => none
            | _ => none
        | none => none
    | none => none
  | _ => none
termination_by sizeOf j

/-- `SelectQuery.fromJSON`: `tables` is required; `unionQueries`,
`joins`, `where` and `having` default to `[]` when falsy (`|| []`);
`orderBy` and `groupBy` default to `[]` when nullish (`?? []`); `fields`
is assigned as decoded; `limit` and `offset` are read as optional
numbers. -/
def SQ.fromJSON (j : Json) : Option SQ :=
  match j with
  | .obj ms =>
    match htb : lookupJson ms "tables" with
    | some (.arr tjs) =>
        have : sizeOf tjs < 1 + sizeOf ms := by
          have h := sizeOf_lookupJson ms "tables" _ htb
          simp only [Json.arr.sizeOf_spec] at h
          omega
        match tablesFromJSON tjs with
        | some tables =>
            match hun : orEmptyArr (lookupJson ms "unionQueries") with
            | some ujs =>
                have : sizeOf ujs < 1 + sizeOf ms :=
                  sizeOf_orEmptyArr ms "unionQueries" ujs hun
                match unionsFromJSON ujs with
                | some uns =>
                    match hjn : orEmptyArr (lookupJson ms "joins") with
                    | some jjs =>
                        have : sizeOf jjs < 1 + sizeOf ms :=
                          sizeOf_orEmptyArr ms "joins" jjs hjn
                        match joinsFromJSON jjs with
                        | some joins =>
                            match decodeSQRest ms with
                            | some (fields, wh, hv, lim, off, ob, gb) =>
                                some (.mk tables joins fields wh hv lim off
                                  ob gb uns)
                            | none => none
                        | none => none
                    | none => none
                | none => none
            | none => none
        | none => none
    | _ => none
  | _ => none
termination_by sizeOf j

/-- Decoding of the `tables` array. -/
def tablesFromJSON : List Json → Option (List Table)
  | [] => some []
  | j :: js =>
    match Table.fromJSON j, tablesFromJSON js with
    | some t, some ts => some (t :: ts)
    | _, _ => none
termination_by js => sizeOf js

/-- Decoding of the `joins` array. -/
def joinsFromJSON : List Json → Option (List Join)
  | [] => some []
  | j :: js =>
    match Join.fromJSON j, joinsFromJSON js with
    | some jn, some jns => some (jn :: jns)
    | _, _ => none
termination_by js => sizeOf js

/-- Decoding of the `unionQueries` array: each entry carries a
`UnionType` string and a serialized query. -/
def unionsFromJSON : List Json → Option (List UnionPair)
  | [] => some []
  | .obj ums :: ujs =>
      (match hqt : lookupJson ums "type" with
       | some (.str t) =>
           match unionTypeFromJSON t with
           | some ty =>
               match hq : lookupJson ums "query" with
               | some qj =>
                   have : sizeOf qj < 1 + sizeOf ums := by
                     have h := sizeOf_lookupJson ums "query" _ hq
                     omega
                   match SQ.fromJSON qj, unionsFromJSON ujs with
                   | some uq, some us => some ((ty, uq) :: us)
                   | _, _ => none
               | none => none
           | none => none
       | _ => none)
  | _ => none
termination_by js => sizeOf js

end

/-- Projection fields round-trip through JSON. -/
theorem field_rt (f : SelectField) : fieldFromJSON (fieldToJSON f) = some f := by
  obtain ⟨n, a⟩ := f
  cases a <;> rfl

/-- Projection-field lists round-trip through JSON. -/
theorem fields_rt (fs : List SelectField) :
    fieldsFromJSON (fs.map fieldToJSON) = some fs := by
  induction fs with
  | nil => rfl
  | cons f fs ih => simp [fieldsFromJSON, field_rt, ih]

/-- Order specs round-trip through JSON. -/
theorem order_rt (o : Order) : orderFromJSON (orderToJSON o) = some o := by
  obtain ⟨f, d⟩ := o
  cases d <;> rfl

/-- Order-spec lists round-trip through JSON. -/
theorem orders_rt (os : List Order) :
    ordersFromJSON (os.map orderToJSON) = some os := by
  induction os with
  | nil => rfl
  | cons o os ih => simp [ordersFromJSON, order_rt, ih]

/-- String lists (`groupBy`) round-trip through JSON. -/
theorem strings_rt (ss : List String) :
    stringsFromJSON (ss.map Json.str) = some ss := by
  induction ss with
  | nil => rfl
  | cons s ss ih => simp [stringsFromJSON, ih]

/-- The member list of `SelectQuery.toJSON` in isolation. -/
def sqMembers : SQ → List (String × Json)
  | .mk tables joins fields wh hv lim off ob gb uns =>
      [("type", Json.str "SelectQuery"),
       ("tables", Json.arr (tableJSONs tables)),
       ("unionQueries", Json.arr (unionJSONs uns)),
       ("joins", Json.arr (joinJSONs joins)),
       ("fields", Json.arr (fields.map fieldToJSON)),
       ("where", Json.arr (condJSONs wh)),
       ("having", Json.arr (condJSONs hv))] ++
      optNumEntry "limit" lim ++
      optNumEntry "offset" off ++
      [("orderBy", Json.arr (ob.map orderToJSON)),
       ("groupBy", Json.arr (gb.map Json.str))]

/-- `SelectQuery.toJSON` always yields an object. -/
theorem toJSON_eq_obj : ∀ q : SQ, SQ.toJSON q = .obj (sqMembers q)
  | .mk _ _ _ _ _ _ _ _ _ _ => by rw [SQ.toJSON, sqMembers]

/-- The serialized form of a query carries the `SelectQuery` type tag. -/
theorem sqMembers_type (q : SQ) :
    lookupJson (sqMembers q) "type" = some (.str "SelectQuery") := by
  cases q
  rw [sqMembers]
  rfl

/-- The member list of `Condition.toJSON` in isolation. -/
def condMembers : Condition → List (String × Json)
  | .equal c v =>
      [("type", .str "Equal"), ("column", .str c), ("value", v.toJSON)]
  | .notEqual c v =>
      [("type", .str "NotEqual"), ("column", .str c), ("value", v.toJSON)]
  | .greaterThan c v =>
      [("type", .str "GreaterThan"), ("column", .str c), ("value", v.toJSON)]
  | .lessThan c v =>
      [("type", .str "LessThan"), ("column", .str c), ("value", v.toJSON)]
  | .between c lo hi =>
      [("type", .str "Between"), ("column", .str c),
       ("from", lo.toJSON), ("to", hi.toJSON)]
  | .inValues c vs =>
      [("type", .str "In"), ("column", .str c),
       ("values", .arr (vs.map CValue.toJSON))]
  | .like c p =>
      [("type", .str "Like"), ("column", .str c), ("pattern", .str p)]
  | .notLike c p =>
      [("type", .str "NotLike"), ("column", .str c), ("pattern", .str p)]
  | .isNull c => [("type", .str "Null"), ("column", .str c)]
  | .isNotNull c => [("type", .str "NotNull"), ("column", .str c)]
  | .columnEqual a b =>
      [("type", .str "ColumnEqual"), ("left", .str a), ("right", .str b)]
  | .and cs => [("type", .str "And"), ("conditions", .arr (condJSONs cs))]
  | .or cs => [("type", .str "Or"), ("conditions", .arr (condJSONs cs))]

/-- `Condition.toJSON` always yields an object. -/
theorem condToJSON_eq_obj (c : Condition) :
    Condition.toJSON c = .obj (condMembers c) := by
  cases c <;> (rw [Condition.toJSON]; rfl)

mutual

/-- `SelectQuery.fromJSON (SelectQuery.toJSON q)` reconstructs `q`. -/
theorem sq_rt : ∀ q : SQ, SQ.fromJSON (SQ.toJSON q) = some q
  | .mk tables joins fields wh hv lim off ob gb uns => by
      have ht := tables_rt tables
      have hj := joins_rt joins
      have hu := unions_rt uns
      rw [SQ.toJSON, SQ.fromJSON]
      cases lim <;> cases off <;>
        (split <;>
          (simp only [optNumEntry, List.cons_append, List.nil_append,
             List.append_nil] at *
           simp_all [lookupJson, orEmptyArr, decodeSQRest,
             nullishArr, numAt, fields_rt, conds_rt, orders_rt, strings_rt]))
termination_by q => sizeOf q

/-- `Table.fromJSON (Table.toJSON t)` reconstructs `t`. -/
theorem table_rt : ∀ t : Table, Table.fromJSON (Table.toJSON t) = some t
  | (.inl s, al) => by
      rw [Table.toJSON, Table.fromJSON]
      cases al <;> rfl
  | (.inr q, al) => by
      have hx : SQ.fromJSON (.obj (sqMembers q)) = some q := by
        rw [← toJSON_eq_obj q]
        exact sq_rt q
      rw [Table.toJSON, toJSON_eq_obj q, Table.fromJSON]
      cases al <;>
        (split
         all_goals rename_i heq
         all_goals (have h2 := heq; simp [lookupJson, optStrEntry] at h2)
         all_goals
           (first
             | (subst h2
                simp [sqMembers_type, hx, aliasOf, lookupJson, optStrEntry])
             | simp_all [lookupJson, optStrEntry]))
termination_by t => sizeOf t

/-- `Join.fromJSON (Join.toJSON j)` reconstructs `j`. -/
theorem join_rt : ∀ j : Join, Join.fromJSON (Join.toJSON j) = some j
  | (tbl, cond, kind) => by
      have htb := table_rt tbl
      cases cond with
      | none =>
          rw [Join.toJSON, Join.fromJSON]
          split
          all_goals rename_i heq
          all_goals (have h2 := heq; simp [lookupJson] at h2)
          all_goals (subst h2
                     cases kind <;>
                       simp [htb, lookupJson, joinKindFromJSON, JoinKind.str])
      | some c =>
          have hc : Condition.fromJSON (.obj (condMembers c)) = some c := by
            rw [← condToJSON_eq_obj c]
            exact condition_rt c
          rw [Join.toJSON, condToJSON_eq_obj c, Join.fromJSON]
          split
          all_goals rename_i heq
          all_goals (have h2 := heq; simp [lookupJson] at h2)
          all_goals (subst h2
                     cases kind <;>
                       simp [htb, hc, lookupJson, joinKindFromJSON, JoinKind.str])
termination_by j => sizeOf j

/-- The `tables` array round-trips. -/
theorem tables_rt : ∀ ts : List Table,
    tablesFromJSON (tableJSONs ts) = some ts
  | [] => by rw [tableJSONs, tablesFromJSON]
  | t :: ts => by
      rw [tableJSONs, tablesFromJSON, table_rt t, tables_rt ts]
termination_by ts => sizeOf ts

/-- The `joins` array round-trips. -/
theorem joins_rt : ∀ js : List Join,
    joinsFromJSON (joinJSONs js) = some js
  | [] => by rw [joinJSONs, joinsFromJSON]
  | j :: js => by
      rw [joinJSONs, joinsFromJSON, join_rt j, joins_rt js]
termination_by js => sizeOf js

/-- The `unionQueries` array round-trips. -/
theorem unions_rt : ∀ us : List UnionPair,
    unionsFromJSON (unionJSONs us) = some us
  | [] => by rw [unionJSONs, unionsFromJSON]
  | (ty, uq) :: us => by
      have hq := sq_rt uq
      have hus := unions_rt us
      rw [unionJSONs, unionsFromJSON]
      cases ty <;>
        (split
         all_goals rename_i heq
         all_goals
           (have h2 := heq
            simp [lookupJson, UnionType.str] at h2)
         all_goals (subst h2
                    simp [hq, hus, lookupJson, unionTypeFromJSON]))
termination_by us => sizeOf us

end

/-! ## Mutation nodes and the deserialize dispatcher -/

/-- Modelled from the spec: `Mutation.ts` is not in the sources. A delete
mutation owns a target table (name with optional alias) and a WHERE
condition sequence. -/
structure DeleteMutation where
  table : String
  aliasName : Option String
  whereConds : List Condition

/-- Modelled from the spec: an update mutation owns a target table,
opaque column/value assignments, and a WHERE condition sequence. -/
structure UpdateMutation where
  table : String
  aliasName : Option String
  assignments : List (String × CValue)
  whereConds : List Condition

/-- Modelled from the spec: an insert mutation owns a target table name
and opaque column/value rows. -/
structure InsertMutation where
  into : String
  rows : List (List (String × CValue))

/-- Decoding of an opaque column/value record. -/
def assignsFromJSON : List (String × Json) → Option (List (String × CValue))
  | [] => some []
  | (k, vj) :: ms =>
    match cvalueFromJSON vj, assignsFromJSON ms with
    | some v, some rest => some ((k, v) :: rest)
    | _, _ => none

/-- Decoding of a list of opaque column/value records. -/
def rowsFromJSON : List Json → Option (List (List (String × CValue)))
  | [] => some []
  | .obj ms :: js =>
    match assignsFromJSON ms, rowsFromJSON js with
    | some row, some rest => some (row :: rest)
    | _, _ => none
  | _ => none

/-- Modelled from the spec: `DeleteMutation.fromJSON`. -/
def DeleteMutation.fromJSON (j : Json) : Option DeleteMutation :=
  match j with
  | .obj ms =>
      match lookupJson ms "table" with
      | some (.str t) =>
          match orEmptyArr (lookupJson ms "where") with
          | some wjs =>
              match condsFromJSON wjs with
              | some wh => some ⟨t, aliasOf ms, wh⟩
              | none => none
          | none => none
      | _ => none
  | _ => none

/-- Modelled from the spec: `UpdateMutation.fromJSON`. -/
def UpdateMutation.fromJSON (j : Json) : Option UpdateMutation :=
  match j with
  | .obj ms =>
      match lookupJson ms "table" with
      | some (.str t) =>
          match lookupJson ms "values" with
          | some (.obj vs) =>
              match assignsFromJSON vs with
              | some asg =>
                  match orEmptyArr (lookupJson ms "where") with
                  | some wjs =>
                      match condsFromJSON wjs with
                      | some wh => some ⟨t, aliasOf ms, asg, wh⟩
                      | none => none
                  | none => none
              | none => none
          | _ => none
      | _ => none
  | _ => none

/-- Modelled from the spec: `InsertMutation.fromJSON`. -/
def InsertMutation.fromJSON (j : Json) : Option InsertMutation :=
  match j with
  | .obj ms =>
      match lookupJson ms "into" with
      | some (.str t) =>
          match lookupJson ms "values" with
          | some (.arr vjs) =>
              match rowsFromJSON vjs with
              | some rows => some ⟨t, rows⟩
              | none => none
          | _ => none
      | _ => none
  | _ => none

/-- The result of the top-level `deserialize` dispatcher: one of the four
node kinds it can reconstruct. -/
inductive DeserializedNode where
  | select (q : SQ)
  | delete (m : DeleteMutation)
  | insert (m : InsertMutation)
  | update (m : UpdateMutation)

/-- Stands in for the JavaScript engine's `TypeError` message produced
when a `fromJSON` body reads a missing or ill-shaped member; the wrapped
error text is engine-specific and the model only fixes one string. -/
def decodeErrorMsg : String := "cannot reconstruct node from JSON"

/-- The top-level `deserialize` of `Query.ts`.  `JSON.parse` is a
platform primitive, so the text-parsing stage is taken as an argument:
an `Except` that is either the decoded value or the parse-failure
reason.  The `try`/`catch` wraps every failure reason in
`Error parsing query: <reason>`; the `switch` on `parsed.type` routes
`SelectQuery`, `DeleteMutation`, `InsertMutation` and `UpdateMutation`,
and every other tag (including a missing or non-string one) falls to
`default`, which throws `Unknown mutation type`.  A `null` parse result
makes the property access itself throw. -/
def deserialize (parsed : Except String Json) : Except String DeserializedNode :=
  match parsed with
  | .error e => .error ("Error parsing query: " ++ e)
  | .ok p =>
      match p with
      | .obj ms =>
          match lookupJson ms "type" with
          | some (.str t) =>
              if t = "SelectQuery" then
                match SQ.fromJSON (.obj ms) with
                | some q => .ok (.select q)
                | none => .error ("Error parsing query: " ++ decodeErrorMsg)
              else if t = "DeleteMutation" then
                match DeleteMutation.fromJSON (.obj ms) with
                | some m => .ok (.delete m)
                | none => .error ("Error parsing query: " ++ decodeErrorMsg)
              else if t = "InsertMutation" then
                match InsertMutation.fromJSON (.obj ms) with
                | some m => .ok (.insert m)
                | none => .error ("Error parsing query: " ++ decodeErrorMsg)
              else if t = "UpdateMutation" then
                match UpdateMutation.fromJSON (.obj ms) with
                | some m => .ok (.update m)
                | none => .error ("Error parsing query: " ++ decodeErrorMsg)
              else .error ("Error parsing query: Unknown mutation type")
          | _ => .error ("Error parsing query: Unknown mutation type")
      | .null => .error ("Error parsing query: " ++ decodeErrorMsg)
      | _ => .error ("Error parsing query: Unknown mutation type")

/-! ## Heap model of the mutable-array object graph

JavaScript objects hold their collections as mutable arrays; `clone`
copies them defensively and the builder methods `push` into (or reassign
on) the fresh clone.  To state the immutability claims faithfully, query
objects are modelled as records of references into per-type array stores,
and every builder method as a state transformer, exactly following the
source: clone first, then mutate only the clone. -/

/-- A store of mutable arrays: cell `r` holds the array at index `r`;
allocation appends a new cell. -/
structure Store (α : Type) where
  cells : List (List α)

/-- Dereference (a dangling reference reads as the empty array). -/
def Store.read {α} (s : Store α) (r : Nat) : List α := s.cells.getD r []

/-- The number of allocated cells. -/
def Store.size {α} (s : Store α) : Nat := s.cells.length

/-- Allocate a fresh array cell, returning the new store and the
reference. -/
def Store.alloc {α} (s : Store α) (xs : List α) : Store α × Nat :=
  (⟨s.cells ++ [xs]⟩, s.cells.length)

/-- Overwrite the cell at `r` (array mutation such as `push`). -/
def Store.write {α} (s : Store α) (r : Nat) (xs : List α) : Store α :=
  ⟨s.cells.set r xs⟩

/-- `s'` extends `s`: every cell of `s` is intact in `s'`. -/
def StoreExtends {α} (s' s : Store α) : Prop :=
  s.size ≤ s'.size ∧ ∀ i, i < s.size → s'.read i = s.read i

theorem storeExtends_refl {α} (s : Store α) : StoreExtends s s :=
  ⟨le_refl _, fun _ _ => rfl⟩

theorem storeExtends_trans {α} {s3 s2 s1 : Store α}
    (h32 : StoreExtends s3 s2) (h21 : StoreExtends s2 s1) :
    StoreExtends s3 s1 := by
  refine ⟨le_trans h21.1 h32.1, fun i hi => ?_⟩
  rw [h32.2 i (lt_of_lt_of_le hi h21.1), h21.2 i hi]

/-- Allocation preserves every existing cell. -/
theorem alloc_extends {α} (s : Store α) (xs : List α) :
    StoreExtends (s.alloc xs).1 s := by
  refine ⟨by simp [Store.alloc, Store.size], fun i hi => ?_⟩
  simp only [Store.alloc, Store.read, Store.size] at *
  rw [List.getD_append]
  exact hi

/-- The freshly allocated cell holds the given array. -/
theorem alloc_read_new {α} (s : Store α) (xs : List α) :
    (s.alloc xs).1.read (s.alloc xs).2 = xs := by
  simp [Store.alloc, Store.read, List.getD_append_right]

theorem alloc_ref {α} (s : Store α) (xs : List α) :
    (s.alloc xs).2 = s.size := rfl

theorem alloc_size {α} (s : Store α) (xs : List α) :
    (s.alloc xs).1.size = s.size + 1 := by
  simp [Store.alloc, Store.size]

/-- Writing a cell past the base store's frontier keeps extending it. -/
theorem write_extends {α} {s' s : Store α} (hext : StoreExtends s' s)
    (r : Nat) (hr : s.size ≤ r) (xs : List α) :
    StoreExtends (s'.write r xs) s := by
  refine ⟨by simpa [Store.write, Store.size] using hext.1, fun i hi => ?_⟩
  rw [← hext.2 i hi]
  simp only [Store.write, Store.read, List.getD_eq_getElem?_getD]
  rw [List.getElem?_set_ne (show r ≠ i by omega)]

theorem write_size {α} (s : Store α) (r : Nat) (xs : List α) :
    (s.write r xs).size = s.size := by
  simp [Store.write, Store.size]

/-- Reading back a written cell that exists. -/
theorem write_read_self {α} (s : Store α) (r : Nat) (hr : r < s.size)
    (xs : List α) : (s.write r xs).read r = xs := by
  simp only [Store.write, Store.read, List.getD_eq_getElem?_getD]
  rw [List.getElem?_set_self (show r < s.cells.length from hr)]
  rfl

/-- The mutable state: one store per collection type. -/
structure Heap where
  tablesH : Store Table
  joinsH : Store Join
  fieldsH : Store SelectField
  whereH : Store Condition
  havingH : Store Condition
  orderByH : Store Order
  groupByH : Store String
  unionsH : Store UnionPair

/-- A `SelectQuery` object: references to its owned arrays plus the
scalar `_limit` / `_offset` members. -/
structure QueryObj where
  tablesRef : Nat
  joinsRef : Nat
  fieldsRef : Nat
  whereRef : Nat
  havingRef : Nat
  orderByRef : Nat
  groupByRef : Nat
  unionsRef : Nat
  limitVal : Option Int
  offsetVal : Option Int

/-- Well-formedness: every reference points at an allocated cell. -/
def WFobj (o : QueryObj) (h : Heap) : Prop :=
  o.tablesRef < h.tablesH.size ∧ o.joinsRef < h.joinsH.size ∧
  o.fieldsRef < h.fieldsH.size ∧ o.whereRef < h.whereH.size ∧
  o.havingRef < h.havingH.size ∧ o.orderByRef < h.orderByH.size ∧
  o.groupByRef < h.groupByH.size ∧ o.unionsRef < h.unionsH.size

/-- The pure AST value a query object currently denotes. -/
def reify (h : Heap) (o : QueryObj) : SQ :=
  .mk (h.tablesH.read o.tablesRef) (h.joinsH.read o.joinsRef)
    (h.fieldsH.read o.fieldsRef) (h.whereH.read o.whereRef)
    (h.havingH.read o.havingRef) o.limitVal o.offsetVal
    (h.orderByH.read o.orderByRef) (h.groupByH.read o.groupByRef)
    (h.unionsH.read o.unionsRef)

/-- The SQL a query object renders in a given state. -/
def renderObj (h : Heap) (fl : Flavor) (o : QueryObj) : String :=
  SQ.toSQL fl (reify h o)

/-- `h'` extends `h`: every store extends the corresponding one. -/
def HeapExtends (h' h : Heap) : Prop :=
  StoreExtends h'.tablesH h.tablesH ∧ StoreExtends h'.joinsH h.joinsH ∧
  StoreExtends h'.fieldsH h.fieldsH ∧ StoreExtends h'.whereH h.whereH ∧
  StoreExtends h'.havingH h.havingH ∧ StoreExtends h'.orderByH h.orderByH ∧
  StoreExtends h'.groupByH h.groupByH ∧ StoreExtends h'.unionsH h.unionsH

theorem heapExtends_refl (h : Heap) : HeapExtends h h :=
  ⟨storeExtends_refl _, storeExtends_refl _, storeExtends_refl _,
   storeExtends_refl _, storeExtends_refl _, storeExtends_refl _,
   storeExtends_refl _, storeExtends_refl _⟩

theorem heapExtends_trans {h3 h2 h1 : Heap} (h32 : HeapExtends h3 h2)
    (h21 : HeapExtends h2 h1) : HeapExtends h3 h1 :=
  ⟨storeExtends_trans h32.1 h21.1,
   storeExtends_trans h32.2.1 h21.2.1,
   storeExtends_trans h32.2.2.1 h21.2.2.1,
   storeExtends_trans h32.2.2.2.1 h21.2.2.2.1,
   storeExtends_trans h32.2.2.2.2.1 h21.2.2.2.2.1,
   storeExtends_trans h32.2.2.2.2.2.1 h21.2.2.2.2.2.1,
   storeExtends_trans h32.2.2.2.2.2.2.1 h21.2.2.2.2.2.2.1,
   storeExtends_trans h32.2.2.2.2.2.2.2 h21.2.2.2.2.2.2.2⟩

/-- In an extended state, a well-formed object denotes the same value
and stays well-formed. -/
theorem reify_extends {h' h : Heap} {o : QueryObj}
    (hext : HeapExtends h' h) (hwf : WFobj o h) :
    reify h' o = reify h o ∧ WFobj o h' := by
  obtain ⟨e1, e2, e3, e4, e5, e6, e7, e8⟩ := hext
  obtain ⟨w1, w2, w3, w4, w5, w6, w7, w8⟩ := hwf
  constructor
  · rw [reify, reify, e1.2 _ w1, e2.2 _ w2, e3.2 _ w3, e4.2 _ w4,
      e5.2 _ w5, e6.2 _ w6, e7.2 _ w7, e8.2 _ w8]
  · exact ⟨lt_of_lt_of_le w1 e1.1, lt_of_lt_of_le w2 e2.1,
      lt_of_lt_of_le w3 e3.1, lt_of_lt_of_le w4 e4.1,
      lt_of_lt_of_le w5 e5.1, lt_of_lt_of_le w6 e6.1,
      lt_of_lt_of_le w7 e7.1, lt_of_lt_of_le w8 e8.1⟩

/-- `new SelectQuery()`: allocate every collection as a fresh empty
array. -/
def selectObj (h : Heap) : QueryObj × Heap :=
  (⟨(h.tablesH.alloc []).2, (h.joinsH.alloc []).2, (h.fieldsH.alloc []).2,
    (h.whereH.alloc []).2, (h.havingH.alloc []).2, (h.orderByH.alloc []).2,
    (h.groupByH.alloc []).2, (h.unionsH.alloc []).2, none, none⟩,
   ⟨(h.tablesH.alloc []).1, (h.joinsH.alloc []).1, (h.fieldsH.alloc []).1,
    (h.whereH.alloc []).1, (h.havingH.alloc []).1, (h.orderByH.alloc []).1,
    (h.groupByH.alloc []).1, (h.unionsH.alloc []).1⟩)

/-- `SelectQuery.clone()` on the object graph: allocate a fresh cell per
collection holding a defensive copy of the receiver's array (tables and
joins element-cloned, unions deep-cloned), and copy the scalars. -/
def cloneObj (o : QueryObj) (h : Heap) : QueryObj × Heap :=
  let ts := h.tablesH.alloc ((h.tablesH.read o.tablesRef).map Table.clone)
  let js := h.joinsH.alloc ((h.joinsH.read o.joinsRef).map Join.clone)
  let fs := h.fieldsH.alloc (h.fieldsH.read o.fieldsRef)
  let ws := h.whereH.alloc (h.whereH.read o.whereRef)
  let hs := h.havingH.alloc (h.havingH.read o.havingRef)
  let os := h.orderByH.alloc (h.orderByH.read o.orderByRef)
  let gs := h.groupByH.alloc (h.groupByH.read o.groupByRef)
  let us := h.unionsH.alloc (cloneUnions (h.unionsH.read o.unionsRef))
  (⟨ts.2, js.2, fs.2, ws.2, hs.2, os.2, gs.2, us.2, o.limitVal, o.offsetVal⟩,
   ⟨ts.1, js.1, fs.1, ws.1, hs.1, os.1, gs.1, us.1⟩)

/-- One builder-method invocation, with its arguments (a nested-query
`from` source and a `union` target are passed as live objects, as in the
API). -/
inductive BuilderCall where
  | fromCall (src : String ⊕ QueryObj) (al : Option String)
  | joinCall (t : Table) (c : Option Condition) (ty : JoinKind)
  | innerJoinCall (t : Table) (c : Condition)
  | leftJoinCall (t : Table) (c : Condition)
  | rightJoinCall (t : Table) (c : Condition)
  | fullJoinCall (t : Table) (c : Condition)
  | fieldCall (n : String) (a : Option String)
  | addFieldCall (n : String) (a : Option String)
  | addFieldsCall (fs : List SelectField)
  | fieldsCall (fs : List SelectField)
  | removeFieldsCall
  | whereCall (c : Condition)
  | havingCall (c : Condition)
  | groupByCall (cols : List String)
  | removeGroupByCall
  | orderByCall (c : String) (d : OrderDirection)
  | removeOrderByCall
  | limitCall (n : Int)
  | clearLimitCall
  | offsetCall (n : Int)
  | clearOffsetCall
  | unionCall (other : QueryObj) (ty : UnionType)

/-- `apply call o h`: run one builder method on object `o` in state `h`,
following the source: clone the receiver, then either push into one of
the clone's fresh arrays, reassign one of the clone's array members to a
new array, or set one of the clone's scalar members. -/
def apply (call : BuilderCall) (o : QueryObj) (h : Heap) :
    QueryObj × Heap :=
  let c := (cloneObj o h).1
  let h1 := (cloneObj o h).2
  match call with
  | .fromCall src al =>
      let tbl : Table :=
        ((match src with
          | .inl s => Sum.inl s
          | .inr b => Sum.inr (SQ.clone (reify h b))), al)
      let (ts, tr) := h1.tablesH.alloc [tbl]
      ({c with tablesRef := tr}, {h1 with tablesH := ts})
  | .joinCall t c0 ty =>
      (c, {h1 with joinsH := (h1.joinsH.write c.joinsRef
        (h1.joinsH.read c.joinsRef ++ [(t, c0, ty)]))})
  | .innerJoinCall t c0 =>
      (c, {h1 with joinsH := (h1.joinsH.write c.joinsRef
        (h1.joinsH.read c.joinsRef ++ [(t, some c0, .INNER)]))})
  | .leftJoinCall t c0 =>
      (c, {h1 with joinsH := (h1.joinsH.write c.joinsRef
        (h1.joinsH.read c.joinsRef ++ [(t, some c0, .LEFT)]))})
  | .rightJoinCall t c0 =>
      (c, {h1 with joinsH := (h1.joinsH.write c.joinsRef
        (h1.joinsH.read c.joinsRef ++ [(t, some c0, .RIGHT)]))})
  | .fullJoinCall t c0 =>
      (c, {h1 with joinsH := (h1.joinsH.write c.joinsRef
        (h1.joinsH.read c.joinsRef ++ [(t, some c0, .FULL)]))})
  | .fieldCall n a =>
      (c, {h1 with fieldsH := (h1.fieldsH.write c.fieldsRef
        (h1.fieldsH.read c.fieldsRef ++ [⟨n, a⟩]))})
  | .addFieldCall n a =>
      (c, {h1 with fieldsH := (h1.fieldsH.write c.fieldsRef
        (h1.fieldsH.read c.fieldsRef ++ [⟨n, a⟩]))})
  | .addFieldsCall fs =>
      (c, {h1 with fieldsH := (h1.fieldsH.write c.fieldsRef
        (h1.fieldsH.read c.fieldsRef ++ fs))})
  | .fieldsCall fs =>
      let (s, r) := h1.fieldsH.alloc fs
      ({c with fieldsRef := r}, {h1 with fieldsH := s})
  | .removeFieldsCall =>
      let (s, r) := h1.fieldsH.alloc []
      ({c with fieldsRef := r}, {h1 with fieldsH := s})
  | .whereCall c0 =>
      (c, {h1 with whereH := (h1.whereH.write c.whereRef
        (h1.whereH.read c.whereRef ++ [c0]))})
  | .havingCall c0 =>
      (c, {h1 with havingH := (h1.havingH.write c.havingRef
        (h1.havingH.read c.havingRef ++ [c0]))})
  | .groupByCall cols =>
      (c, {h1 with groupByH := (h1.groupByH.write c.groupByRef
        (h1.groupByH.read c.groupByRef ++ cols))})
  | .removeGroupByCall =>
      let (s, r) := h1.groupByH.alloc []
      ({c with groupByRef := r}, {h1 with groupByH := s})
  | .orderByCall col d =>
      (c, {h1 with orderByH := (h1.orderByH.write c.orderByRef
        (h1.orderByH.read c.orderByRef ++ [⟨col, d⟩]))})
  | .removeOrderByCall =>
      let (s, r) := h1.orderByH.alloc []
      ({c with orderByRef := r}, {h1 with orderByH := s})
  | .limitCall n => ({c with limitVal := some n}, h1)
  | .clearLimitCall => ({c with limitVal := none}, h1)
  | .offsetCall n => ({c with offsetVal := some n}, h1)
  | .clearOffsetCall => ({c with offsetVal := none}, h1)
  | .unionCall b ty =>
      (c, {h1 with unionsH := (h1.unionsH.write c.unionsRef
        (h1.unionsH.read c.unionsRef ++ [(ty, reify h b)]))})

/-- A chain of builder calls applied to the successive results. -/
def applyChain : List BuilderCall → QueryObj → Heap → QueryObj × Heap
  | [], o, h => (o, h)
  | call :: calls, o, h =>
      applyChain calls (apply call o h).1 (apply call o h).2

/-- Cloning preserves every existing cell. -/
theorem cloneObj_extends (o : QueryObj) (h : Heap) :
    HeapExtends (cloneObj o h).2 h :=
  ⟨alloc_extends _ _, alloc_extends _ _, alloc_extends _ _, alloc_extends _ _,
   alloc_extends _ _, alloc_extends _ _, alloc_extends _ _, alloc_extends _ _⟩

/-- The clone's references all point at freshly allocated cells. -/
theorem cloneObj_wf (o : QueryObj) (h : Heap) :
    WFobj (cloneObj o h).1 (cloneObj o h).2 := by
  refine ⟨?_, ?_, ?_, ?_, ?_, ?_, ?_, ?_⟩ <;>
    simp [cloneObj, Store.alloc, Store.size]

/-- One builder call only adds state: the new heap extends the old one,
and the returned object is well-formed in it. -/
theorem apply_frame (call : BuilderCall) (o : QueryObj) (h : Heap) :
    HeapExtends (apply call o h).2 h ∧
    WFobj (apply call o h).1 (apply call o h).2 := by
  obtain ⟨ce1, ce2, ce3, ce4, ce5, ce6, ce7, ce8⟩ := cloneObj_extends o h
  obtain ⟨cw1, cw2, cw3, cw4, cw5, cw6, cw7, cw8⟩ := cloneObj_wf o h
  cases call <;>
    (simp only [apply]
     refine ⟨⟨?_, ?_, ?_, ?_, ?_, ?_, ?_, ?_⟩, ?_, ?_, ?_, ?_, ?_, ?_, ?_, ?_⟩ <;>
      first
        | exact ce1 | exact ce2 | exact ce3 | exact ce4
        | exact ce5 | exact ce6 | exact ce7 | exact ce8
        | exact storeExtends_trans (alloc_extends _ _) ce1
        | exact storeExtends_trans (alloc_extends _ _) ce3
        | exact storeExtends_trans (alloc_extends _ _) ce6
        | exact storeExtends_trans (alloc_extends _ _) ce7
        | exact write_extends ce2 _ (Nat.le_of_eq rfl) _
        | exact write_extends ce3 _ (Nat.le_of_eq rfl) _
        | exact write_extends ce4 _ (Nat.le_of_eq rfl) _
        | exact write_extends ce5 _ (Nat.le_of_eq rfl) _
        | exact write_extends ce6 _ (Nat.le_of_eq rfl) _
        | exact write_extends ce7 _ (Nat.le_of_eq rfl) _
        | exact write_extends ce8 _ (Nat.le_of_eq rfl) _
        | exact cw1 | exact cw2 | exact cw3 | exact cw4
        | exact cw5 | exact cw6 | exact cw7 | exact cw8
        | (simpa [write_size] using cw2)
        | (simpa [write_size] using cw3)
        | (simpa [write_size] using cw4)
        | (simpa [write_size] using cw5)
        | (simpa [write_size] using cw6)
        | (simpa [write_size] using cw7)
        | (simpa [write_size] using cw8)
        | (simpa [alloc_size] using Nat.lt_succ_of_lt cw1)
        | (simpa [alloc_size] using Nat.lt_succ_of_lt cw3)
        | (simpa [alloc_size] using Nat.lt_succ_of_lt cw6)
        | (simpa [alloc_size] using Nat.lt_succ_of_lt cw7)
        | (simp only [alloc_size, alloc_ref]; omega))

/-- A chain of builder calls only adds state. -/
theorem applyChain_extends (calls : List BuilderCall) (o : QueryObj)
    (h : Heap) : HeapExtends (applyChain calls o h).2 h := by
  induction calls generalizing o h with
  | nil => exact heapExtends_refl h
  | cons c cs ih =>
      rw [applyChain]
      exact heapExtends_trans (ih _ _) (apply_frame c o h).1

/-- Frame property: one builder call leaves every well-formed object's
denotation (hence its rendered SQL) unchanged, and keeps it well-formed. -/
theorem apply_preserves (call : BuilderCall) (o r : QueryObj) (h : Heap)
    (hwf : WFobj r h) :
    reify (apply call o h).2 r = reify h r ∧ WFobj r (apply call o h).2 :=
  reify_extends (apply_frame call o h).1 hwf

/-- Frame property for chains of builder calls. -/
theorem applyChain_preserves (calls : List BuilderCall) (o r : QueryObj)
    (h : Heap) (hwf : WFobj r h) :
    reify (applyChain calls o h).2 r = reify h r ∧
    WFobj r (applyChain calls o h).2 :=
  reify_extends (applyChain_extends calls o h) hwf

/-! ## Clause-by-clause decomposition of toSQL -/

/-- The rendered-table list equals a plain `map`. -/
theorem tableSQLs_eq (fl : Flavor) (ts : List Table) :
    tableSQLs fl ts = ts.map (Table.toSQL fl) := by
  induction ts with
  | nil => rw [tableSQLs]; rfl
  | cons t ts ih => rw [tableSQLs, ih]; rfl

/-- The rendered-join list equals a plain `map`. -/
theorem joinSQLs_eq (fl : Flavor) (js : List Join) :
    joinSQLs fl js = js.map (Join.toSQL fl) := by
  induction js with
  | nil => rw [joinSQLs]; rfl
  | cons j js ih => rw [joinSQLs, ih]; rfl

/-- The rendered-condition list equals a plain `map`. -/
theorem condSQLs_eq (fl : Flavor) (cs : List Condition) :
    condSQLs fl cs = cs.map (Condition.toSQL fl) := by
  induction cs with
  | nil => rw [condSQLs]; rfl
  | cons c cs ih => rw [condSQLs, ih]; rfl

/-- The union loop is a left fold: each accumulated pair wraps the
statement built so far in parentheses and appends
`<UNION|UNION ALL> (<other SQL>)`, left-to-right. -/
theorem unionFold_eq (fl : Flavor) (uns : List UnionPair) (sql : String) :
    unionFold fl sql uns =
      uns.foldl
        (fun acc u =>
          "(" ++ acc ++ ") " ++ u.1.str ++ " (" ++ SQ.toSQL fl u.2 ++ ")")
        sql := by
  induction uns generalizing sql with
  | nil => rw [unionFold]; rfl
  | cons u uns ih =>
      obtain ⟨ty, uq⟩ := u
      rw [unionFold, ih]
      rfl

/-- Spec wording: the `SELECT <fields|*> ` clause (with its trailing
space). -/
def specSelectClause (fl : Flavor) (q : SQ) : String :=
  "SELECT " ++
    (if q.fieldsOf.isEmpty then "*"
     else String.intercalate ", "
       (q.fieldsOf.map (fun f => fl.escapeColumn f.name ++ aliasSQL fl f.aliasName))) ++ " "

/-- Spec wording: the `FROM` clause, empty when no tables are set. -/
def specFromClause (fl : Flavor) (q : SQ) : String :=
  if q.tablesOf.isEmpty then ""
  else "FROM " ++ String.intercalate "," (q.tablesOf.map (Table.toSQL fl))

/-- Spec wording: the join clause. -/
def specJoinClause (fl : Flavor) (q : SQ) : String :=
  if q.joinsOf.isEmpty then ""
  else " " ++ String.intercalate " " (q.joinsOf.map (Join.toSQL fl))

/-- Spec wording: the `WHERE` clause — the appended conditions joined by
` AND ` in append order. -/
def specWhereClause (fl : Flavor) (q : SQ) : String :=
  if q.whereOf.isEmpty then ""
  else " WHERE " ++
    String.intercalate " AND " (q.whereOf.map (Condition.toSQL fl))

/-- Spec wording: the `GROUP BY` clause. -/
def specGroupByClause (fl : Flavor) (q : SQ) : String :=
  if q.groupByOf.isEmpty then ""
  else " GROUP BY " ++
    String.intercalate ", " (q.groupByOf.map fl.escapeColumn)

/-- Spec wording: the `HAVING` clause — the appended conditions joined
by ` AND ` in append order. -/
def specHavingClause (fl : Flavor) (q : SQ) : String :=
  if q.havingOf.isEmpty then ""
  else " HAVING " ++
    String.intercalate " AND " (q.havingOf.map (Condition.toSQL fl))

/-- Spec wording: the `ORDER BY` clause. -/
def specOrderByClause (fl : Flavor) (q : SQ) : String :=
  if q.orderByOf.isEmpty then ""
  else " ORDER BY " ++
    String.intercalate ", "
      (q.orderByOf.map (fun o => fl.escapeColumn o.col ++ " " ++ o.direction.str))

/-- Spec wording: the `LIMIT` clause (present and truthy). -/
def specLimitClause (q : SQ) : String :=
  match q.limitOf with
  | some l => if l = 0 then "" else " LIMIT " ++ toString l
  | none => ""

/-- Spec wording: the `OFFSET` clause (present and truthy). -/
def specOffsetClause (q : SQ) : String :=
  match q.offsetOf with
  | some v => if v = 0 then "" else " OFFSET " ++ toString v
  | none => ""

/-- Spec wording: the complete base statement — the populated clauses in
the fixed order SELECT, FROM, JOIN, WHERE, GROUP BY, HAVING, ORDER BY,
LIMIT, OFFSET. -/
def specStatement (fl : Flavor) (q : SQ) : String :=
  specSelectClause fl q ++ specFromClause fl q ++ specJoinClause fl q ++
    specWhereClause fl q ++ specGroupByClause fl q ++ specHavingClause fl q ++
    specOrderByClause fl q ++ specLimitClause q ++ specOffsetClause q

/-- Spec wording: wrapping by the accumulated union pairs, left-to-right
in append order. -/
def specUnionWrap (fl : Flavor) (uns : List UnionPair) (sql : String) :
    String :=
  uns.foldl
    (fun acc u =>
      "(" ++ acc ++ ") " ++ u.1.str ++ " (" ++ SQ.toSQL fl u.2 ++ ")")
    sql

/-- Skipping an empty clause equals appending its empty rendering. -/
theorem step_if (c : Prop) [Decidable c] (prev part : String) :
    (if c then prev else prev ++ part) = prev ++ (if c then "" else part) := by
  split <;> simp

set_option maxHeartbeats 2000000 in
/-- The source `toSQL` refines the spec's clause-by-clause reading:
the fixed clause order, then the union wrapping. -/
theorem toSQL_decomp (fl : Flavor) (q : SQ) :
    SQ.toSQL fl q = specUnionWrap fl q.unionsOf (specStatement fl q) := by
  cases q with
  | mk tables joins fields wh hv lim off ob gb uns =>
  rw [SQ.toSQL.eq_def]
  simp only [tableSQLs_eq, joinSQLs_eq, unionFold_eq]
  simp only [specUnionWrap, SQ.unionsOf]
  congr 1
  simp only [specStatement, specSelectClause, specFromClause, specJoinClause,
    specWhereClause, specGroupByClause, specHavingClause, specOrderByClause,
    specLimitClause, specOffsetClause, SQ.tablesOf, SQ.joinsOf, SQ.fieldsOf,
    SQ.whereOf, SQ.havingOf, SQ.limitOf, SQ.offsetOf, SQ.orderByOf,
    SQ.groupByOf]
  cases lim <;> cases off <;>
    (simp only [String.append_assoc]
     simp only [step_if]
     split <;> simp_all [String.append_assoc])

/-- `union` appends one pair and leaves every other member unchanged. -/
theorem union_eq (a b : SQ) (ty : UnionType) :
    a.union b ty =
      .mk a.tablesOf a.joinsOf a.fieldsOf a.whereOf a.havingOf a.limitOf
        a.offsetOf a.orderByOf a.groupByOf (a.unionsOf ++ [(ty, b)]) := by
  cases a with
  | mk t j f w h l o ob g u =>
      rw [SQ.union.eq_def, SQ.clone_eq]
      rfl

/-- The base statement ignores the union list. -/
theorem specStatement_union (fl : Flavor) (a b : SQ) (ty : UnionType) :
    specStatement fl (a.union b ty) = specStatement fl a := by
  rw [union_eq]
  cases a with
  | mk t j f w h l o ob g u => rfl

/-! ## Claim theorems -/

/-- A tiny initial state for concrete witnesses. -/
def emptyHeap : Heap :=
  ⟨⟨[]⟩, ⟨[]⟩, ⟨[]⟩, ⟨[]⟩, ⟨[]⟩, ⟨[]⟩, ⟨[]⟩, ⟨[]⟩⟩

/-- **C1** (code evidence): the renderer guards `_limit` and `_offset`
with JavaScript truthiness, so `select().from("t").limit(0)` renders
without any `LIMIT` clause (and likewise `offset(0)`), while a non-zero
limit renders; the spec requires `LIMIT 0` to render. -/
theorem c1_limit_zero_dropped :
    SQ.toSQL mysql ((select.from_ (Sum.inl "t") none).limit 0) =
        "SELECT * FROM `t`" ∧
    SQ.toSQL mysql ((select.from_ (Sum.inl "t") none).offset 0) =
        "SELECT * FROM `t`" ∧
    SQ.toSQL mysql ((select.from_ (Sum.inl "t") none).limit 10) =
        "SELECT * FROM `t` LIMIT 10" := by
  have hfrom : select.from_ (Sum.inl "t") none =
      SQ.mk [(Sum.inl "t", none)] [] [] [] [] none none [] [] [] := by
    rw [SQ.from_.eq_def, SQ.clone_eq]
    rfl
  have hlim0 : (select.from_ (Sum.inl "t") none).limit 0 =
      SQ.mk [(Sum.inl "t", none)] [] [] [] [] (some 0) none [] [] [] := by
    rw [hfrom, SQ.limit.eq_def, SQ.clone_eq]
  have hoff0 : (select.from_ (Sum.inl "t") none).offset 0 =
      SQ.mk [(Sum.inl "t", none)] [] [] [] [] none (some 0) [] [] [] := by
    rw [hfrom, SQ.offset.eq_def, SQ.clone_eq]
  have hlim10 : (select.from_ (Sum.inl "t") none).limit 10 =
      SQ.mk [(Sum.inl "t", none)] [] [] [] [] (some 10) none [] [] [] := by
    rw [hfrom, SQ.limit.eq_def, SQ.clone_eq]
  refine ⟨?_, ?_, ?_⟩
  · rw [hlim0, SQ.toSQL.eq_def]
    simp only [tableSQLs, Table.toSQL, aliasSQL, unionFold]
    rfl
  · rw [hoff0, SQ.toSQL.eq_def]
    simp only [tableSQLs, Table.toSQL, aliasSQL, unionFold]
    rfl
  · rw [hlim10, SQ.toSQL.eq_def]
    simp only [tableSQLs, Table.toSQL, aliasSQL, unionFold]
    rfl

/-- **C2**: serializing a Table, Join or SelectQuery to its tagged JSON
value and reconstructing it yields a node rendering identical SQL under
every flavor. -/
theorem c2_json_roundtrip_renders_identically :
    ∀ (fl : Flavor) (t : Table) (j : Join) (q : SQ),
      (Table.fromJSON (Table.toJSON t)).map (Table.toSQL fl) =
          some (Table.toSQL fl t) ∧
      (Join.fromJSON (Join.toJSON j)).map (Join.toSQL fl) =
          some (Join.toSQL fl j) ∧
      (SQ.fromJSON (SQ.toJSON q)).map (SQ.toSQL fl) =
          some (SQ.toSQL fl q) :=
  fun fl t j q =>
    ⟨by rw [table_rt]; rfl, by rw [join_rt]; rfl, by rw [sq_rt]; rfl⟩

/-- **C3**: every builder call returns a new object and mutates only
freshly allocated state, so after any chain of builder calls (arbitrary
depth, from any receiver), every previously well-formed query object —
the receiver itself and any shared base — still renders its original SQL
under every flavor. -/
theorem c3_builders_preserve_existing_renderings :
    ∀ (calls : List BuilderCall) (o r : QueryObj) (h : Heap) (fl : Flavor),
      WFobj r h →
      renderObj (applyChain calls o h).2 fl r = renderObj h fl r :=
  fun calls o r h fl hwf => by
    rw [renderObj, renderObj, (applyChain_preserves calls o r h hwf).1]

/-- Witness for C3 at a concrete state: a fresh `select()` object keeps
rendering its original SQL after `where` and `limit` calls. -/
theorem c3_witness :
    WFobj (selectObj emptyHeap).1 (selectObj emptyHeap).2 ∧
    renderObj
        (applyChain [.whereCall (.isNull "a"), .limitCall 5]
          (selectObj emptyHeap).1 (selectObj emptyHeap).2).2 mysql
        (selectObj emptyHeap).1 =
      renderObj (selectObj emptyHeap).2 mysql (selectObj emptyHeap).1 := by
  have hwf : WFobj (selectObj emptyHeap).1 (selectObj emptyHeap).2 := by
    simp [WFobj, selectObj, emptyHeap, Store.alloc, Store.size]
  exact ⟨hwf,
    c3_builders_preserve_existing_renderings _ _ _ _ mysql hwf⟩

/-- **C4**: reading the primary table of a query with no tables fails
with the `No table defined` error — never a default table. -/
theorem c4_table_accessor_errors_when_empty :
    ∀ q : SQ, q.tablesOf = [] →
      SQ.table q = .error "No table defined" := by
  intro q hq
  rw [SQ.table, hq]

/-- Witness for C4 at the empty query. -/
theorem c4_witness :
    select.tablesOf = [] ∧
    SQ.table select = .error "No table defined" :=
  ⟨rfl, c4_table_accessor_errors_when_empty select rfl⟩

/-- **C5** (counterexample): the top-level dispatcher does NOT route the
`Table` discriminator — a `Table`-tagged value that `Table.fromJSON`
happily decodes is rejected with the unknown-type error. -/
theorem c5_table_tag_not_routed :
    deserialize
        (.ok (.obj [("type", Json.str "Table"), ("source", Json.str "x")])) =
      .error "Error parsing query: Unknown mutation type" ∧
    Table.fromJSON
        (.obj [("type", Json.str "Table"), ("source", Json.str "x")]) =
      some (Sum.inl "x", none) := by
  constructor
  · rfl
  · rw [Table.fromJSON.eq_def]
    rfl

/-- **C5** (amended): the dispatcher routes exactly the tags
`SelectQuery`, `DeleteMutation`, `InsertMutation`, `UpdateMutation`; any
other tag fails with the unknown-type error, and a parse failure is
wrapped in a single error naming the underlying reason. -/
theorem c5_dispatch_amended :
    (∀ e, deserialize (.error e) = .error ("Error parsing query: " ++ e))
    ∧ (∀ ms, lookupJson ms "type" = some (.str "SelectQuery") →
        deserialize (.ok (.obj ms)) =
          (match SQ.fromJSON (.obj ms) with
           | some q => .ok (.select q)
           | none => .error ("Error parsing query: " ++ decodeErrorMsg)))
    ∧ (∀ ms, lookupJson ms "type" = some (.str "DeleteMutation") →
        deserialize (.ok (.obj ms)) =
          (match DeleteMutation.fromJSON (.obj ms) with
           | some m => .ok (.delete m)
           | none => .error ("Error parsing query: " ++ decodeErrorMsg)))
    ∧ (∀ ms, lookupJson ms "type" = some (.str "InsertMutation") →
        deserialize (.ok (.obj ms)) =
          (match InsertMutation.fromJSON (.obj ms) with
           | some m => .ok (.insert m)
           | none => .error ("Error parsing query: " ++ decodeErrorMsg)))
    ∧ (∀ ms, lookupJson ms "type" = some (.str "UpdateMutation") →
        deserialize (.ok (.obj ms)) =
          (match UpdateMutation.fromJSON (.obj ms) with
           | some m => .ok (.update m)
           | none => .error ("Error parsing query: " ++ decodeErrorMsg)))
    ∧ (∀ ms t, lookupJson ms "type" = some (.str t) →
        t ≠ "SelectQuery" → t ≠ "DeleteMutation" → t ≠ "InsertMutation" →
        t ≠ "UpdateMutation" →
        deserialize (.ok (.obj ms)) =
          .error "Error parsing query: Unknown mutation type") := by
  refine ⟨fun e => rfl, ?_, ?_, ?_, ?_, ?_⟩
  · intro ms hty
    simp [deserialize, hty]
  · intro ms hty
    simp [deserialize, hty]
  · intro ms hty
    simp [deserialize, hty]
  · intro ms hty
    simp [deserialize, hty]
  · intro ms t hty h1 h2 h3 h4
    simp [deserialize, hty, h1, h2, h3, h4]

/-- Witness for the amended C5 at concrete inputs. -/
theorem c5_dispatch_amended_witness :
    deserialize (.error "Unexpected end of JSON input") =
        .error "Error parsing query: Unexpected end of JSON input"
    ∧ deserialize (.ok (.obj [("type", Json.str "Bogus")])) =
        .error "Error parsing query: Unknown mutation type" :=
  ⟨c5_dispatch_amended.1 _,
   c5_dispatch_amended.2.2.2.2.2 [("type", Json.str "Bogus")] "Bogus" rfl
     (by decide) (by decide) (by decide) (by decide)⟩

/-- **C6**: `toSQL` populates clauses in the fixed order SELECT, FROM,
JOIN, WHERE, GROUP BY, HAVING, ORDER BY, LIMIT, OFFSET (then union
wrapping), with WHERE and HAVING conditions joined by ` AND ` in append
order. -/
theorem c6_clause_order_fixed :
    ∀ (fl : Flavor) (q : SQ),
      SQ.toSQL fl q =
        specUnionWrap fl q.unionsOf
          (specSelectClause fl q ++ specFromClause fl q ++
           specJoinClause fl q ++ specWhereClause fl q ++
           specGroupByClause fl q ++ specHavingClause fl q ++
           specOrderByClause fl q ++ specLimitClause q ++
           specOffsetClause q) :=
  fun fl q => toSQL_decomp fl q

/-- **C7**: a union on a query with no prior unions renders
`(<a>) UNION (<b>)`, and in general each accumulated union pair wraps
the statement built so far, left-to-right in append order. -/
theorem c7_union_wrapping :
    ∀ (fl : Flavor) (a b : SQ),
      (a.unionsOf = [] →
        SQ.toSQL fl (a.union b .UNION) =
          "(" ++ SQ.toSQL fl a ++ ") UNION (" ++ SQ.toSQL fl b ++ ")")
      ∧ ∀ (q : SQ) (s : String),
          unionFold fl s q.unionsOf =
            q.unionsOf.foldl
              (fun acc u =>
                "(" ++ acc ++ ") " ++ u.1.str ++ " (" ++ SQ.toSQL fl u.2 ++ ")")
              s := by
  intro fl a b
  constructor
  · intro ha
    have h1 : (a.union b .UNION).unionsOf =
        a.unionsOf ++ [(UnionType.UNION, b)] := by
      rw [union_eq]
      rfl
    rw [toSQL_decomp fl (a.union b .UNION), specStatement_union, h1, ha,
      toSQL_decomp fl a, ha]
    simp only [specUnionWrap, UnionType.str, List.nil_append,
      List.foldl_cons, List.foldl_nil, String.append_assoc]
    rfl
  · intro q s
    exact unionFold_eq fl q.unionsOf s

/-- Witness for C7 at two concrete single-table selects. -/
theorem c7_witness :
    (select.from_ (Sum.inl "a") none).unionsOf = [] ∧
    SQ.toSQL mysql
        ((select.from_ (Sum.inl "a") none).union
          (select.from_ (Sum.inl "b") none) .UNION) =
      "(" ++ SQ.toSQL mysql (select.from_ (Sum.inl "a") none) ++
        ") UNION (" ++ SQ.toSQL mysql (select.from_ (Sum.inl "b") none) ++ ")" := by
  have ha : (select.from_ (Sum.inl "a") none).unionsOf = [] := by
    rw [SQ.from_.eq_def, SQ.clone_eq]
    rfl
  exact ⟨ha,
    (c7_union_wrapping mysql (select.from_ (Sum.inl "a") none)
      (select.from_ (Sum.inl "b") none)).1 ha⟩

/-- **C8**: `from` replaces the table list with exactly one table
wrapping the source (a nested query is captured by value, a clone); the
resulting query is well-formed and its rendering is unaffected by any
later builder call on any object — in particular by calls on the
subquery object that was passed in. -/
theorem c8_from_replaces_tables_with_cloned_source :
    ∀ (src : String ⊕ QueryObj) (al : Option String) (o : QueryObj)
      (h : Heap) (fl : Flavor),
      ((apply (.fromCall src al) o h).2.tablesH.read
          (apply (.fromCall src al) o h).1.tablesRef =
        [((match src with
           | .inl s => Sum.inl s
           | .inr b => Sum.inr (reify h b)), al)])
      ∧ WFobj (apply (.fromCall src al) o h).1 (apply (.fromCall src al) o h).2
      ∧ ∀ (call : BuilderCall) (r : QueryObj),
          renderObj (apply call r (apply (.fromCall src al) o h).2).2 fl
              (apply (.fromCall src al) o h).1 =
            renderObj (apply (.fromCall src al) o h).2 fl
              (apply (.fromCall src al) o h).1 := by
  intro src al o h fl
  refine ⟨?_, (apply_frame _ o h).2, ?_⟩
  · cases src <;> simp [apply, alloc_read_new, SQ.clone_eq]
  · intro call r
    rw [renderObj, renderObj,
      (apply_preserves call r _ _ (apply_frame (.fromCall src al) o h).2).1]

/-- **C9**: a nested-query table source renders parenthesized with the
synthesized default alias `t` (escaped as a column identifier) when no
alias is supplied; a string source with no alias renders as just the
escaped table name. -/
theorem c9_nested_source_default_alias :
    ∀ (fl : Flavor) (q : SQ) (s : String),
      (Table.toSQL fl (Sum.inr q, none) =
          "(" ++ SQ.toSQL fl q ++ ")" ++ " AS " ++ fl.escapeColumn "t")
      ∧ (Table.toSQL fl (Sum.inl s, none) = fl.escapeTable s)
      ∧ SQ.toSQL mysql
          (select.from_ (Sum.inr (select.from_ (Sum.inl "x") none)) none) =
          "SELECT * FROM (SELECT * FROM `x`) AS `t`" := by
  intro fl q s
  have hx : select.from_ (Sum.inl "x") none =
      SQ.mk [(Sum.inl "x", none)] [] [] [] [] none none [] [] [] := by
    rw [SQ.from_.eq_def, SQ.clone_eq]
    rfl
  have houter :
      select.from_ (Sum.inr (select.from_ (Sum.inl "x") none)) none =
        SQ.mk
          [(Sum.inr (SQ.mk [(Sum.inl "x", none)] [] [] [] [] none none [] [] []),
            none)] [] [] [] [] none none [] [] [] := by
    rw [hx, SQ.from_.eq_def]
    simp only [SQ.clone_eq]
    rfl
  refine ⟨?_, ?_, ?_⟩
  · rw [Table.toSQL.eq_def]
    simp only [aliasSQL, optFalsy, String.append_assoc]
    rfl
  · rw [Table.toSQL.eq_def]
    simp [aliasSQL]
  · rw [houter, SQ.toSQL.eq_def]
    simp only [tableSQLs, Table.toSQL, aliasSQL, optFalsy, unionFold,
      SQ.toSQL, escapeTable]
    rfl

/-- **C10**: rendering a query with no tables does not fail: a bare
`select()` renders `SELECT * ` (no FROM clause) under every flavor,
while only the primary-table accessor raises the no-table error. -/
theorem c10_bare_select_renders :
    ∀ fl : Flavor,
      SQ.toSQL fl select = "SELECT * " ∧
      SQ.table select = .error "No table defined" := by
  intro fl
  constructor
  · rw [show select = SQ.mk [] [] [] [] [] none none [] [] [] from rfl,
      SQ.toSQL.eq_def]
    simp [tableSQLs, unionFold]
  · rfl

end TsQuery

